import Mathlib

/-!
Verification of the quicksort_mm library: in-place quicksort and quickselect
with median-of-medians ("repeated step") pivot selection.

The mutable, randomly addressable sequence of the library is modelled as a
List with position-based access; every mutation of the source (element
exchange, element store) becomes a functional update of the list, and every
routine that mutates the sequence returns the updated list.  Positions are
Nat indices; iterator arithmetic of the source translates to index
arithmetic.  The comparator is a boolean less-than predicate, as in the
generic C++ variant; the value comparisons of the plain C++ variant
(x <= y, x >= y, x > y) are rendered through it in the standard way for an
ordered value type: x <= y is "not (y < x)", x >= y is "not (x < y)",
x > y is "y < x".  The C variant uses a three-way comparator returning an
integer sign, modelled as a function into Int.
-/

set_option maxHeartbeats 1000000

namespace QuicksortMM

variable {α : Type} [Inhabited α]

/-- Element access by position; positions beyond the sequence give the
default element (such accesses never occur in verified runs). -/
def aget (a : List α) (i : Nat) : α := a.getD i default

/-- Exchange primitive: swap the elements at two positions.  Mirrors the
byte-wise or std::swap based exchange of the source. -/
def swapA (a : List α) (i j : Nat) : List α :=
  (a.set i (aget a j)).set j (aget a i)

theorem aget_eq_getElem (a : List α) (i : Nat) (h : i < a.length) :
    aget a i = a[i] := by
  simp [aget, List.getD_eq_getElem?_getD, List.getElem?_eq_getElem h]

theorem aget_set_self (a : List α) (i : Nat) (v : α) (h : i < a.length) :
    aget (a.set i v) i = v := by
  simp [aget, List.getD_eq_getElem?_getD, List.getElem?_set_self h]

theorem aget_set_ne (a : List α) (i k : Nat) (v : α) (h : k ≠ i) :
    aget (a.set i v) k = aget a k := by
  simp [aget, List.getD_eq_getElem?_getD, List.getElem?_set_ne (by omega : i ≠ k)]

theorem set_aget_self (a : List α) (i : Nat) (h : i < a.length) :
    a.set i (aget a i) = a := by
  apply List.ext_getElem?
  intro k
  by_cases hk : i = k
  · rw [← hk, List.getElem?_set_self h, aget_eq_getElem a i h, List.getElem?_eq_getElem h]
  · rw [List.getElem?_set_ne hk]

@[simp] theorem length_swapA (a : List α) (i j : Nat) :
    (swapA a i j).length = a.length := by
  simp [swapA]

theorem aget_swapA_ne (a : List α) (i j k : Nat) (h1 : k ≠ i) (h2 : k ≠ j) :
    aget (swapA a i j) k = aget a k := by
  simp [swapA, aget_set_ne _ _ _ _ h2, aget_set_ne _ _ _ _ h1]

theorem aget_swapA_right (a : List α) (i j : Nat) (hj : j < a.length) :
    aget (swapA a i j) j = aget a i := by
  simp [swapA]
  exact aget_set_self _ _ _ (by simpa using hj)

theorem aget_swapA_left (a : List α) (i j : Nat) (hi : i < a.length) :
    aget (swapA a i j) i = aget a j := by
  by_cases hij : i = j
  · subst hij
    simpa [swapA] using aget_set_self _ _ _ (by simpa using hi)
  · simp [swapA, aget_set_ne _ _ _ _ hij, aget_set_self _ _ _ hi]

theorem swapA_self (a : List α) (i : Nat) (h : i < a.length) :
    swapA a i i = a := by
  simp [swapA, List.set_set, set_aget_self a i h]

theorem cons_set_perm (x : α) :
    ∀ (l : List α) (j : Nat), j < l.length →
      (aget l j :: l.set j x).Perm (x :: l)
  | [], j, hj => by simp at hj
  | b :: t, 0, _ => by
      simpa [aget] using List.Perm.swap x b t
  | b :: t, j + 1, hj => by
      have ih := cons_set_perm x t j (by simpa using hj)
      have e : aget (b :: t) (j + 1) :: (b :: t).set (j + 1) x
          = aget t j :: b :: t.set j x := by simp [aget]
      rw [e]
      exact (List.Perm.swap b (aget t j) (t.set j x)).trans
        ((ih.cons b).trans (List.Perm.swap x b t))

theorem swapA_perm :
    ∀ (a : List α) (i j : Nat), i < a.length → j < a.length →
      (swapA a i j).Perm a
  | [], i, _, hi, _ => by simp at hi
  | x :: t, 0, 0, hi, _ => by rw [swapA_self _ _ hi]
  | x :: t, 0, j + 1, _, hj => by
      have : swapA (x :: t) 0 (j + 1) = aget t j :: t.set j x := by
        simp [swapA, aget]
      rw [this]
      exact cons_set_perm x t j (by simpa using hj)
  | x :: t, i + 1, 0, hi, _ => by
      have : swapA (x :: t) (i + 1) 0 = aget t i :: t.set i x := by
        simp [swapA, aget]
      rw [this]
      exact cons_set_perm x t i (by simpa using hi)
  | x :: t, i + 1, j + 1, hi, hj => by
      have ih := swapA_perm t i j (by simpa using hi) (by simpa using hj)
      have : swapA (x :: t) (i + 1) (j + 1) = x :: swapA t i j := by
        simp [swapA, aget]
      rw [this]
      exact ih.cons x

/-- The contiguous segment of the sequence from position first (inclusive)
to position last (exclusive), read off by position. -/
def sliceL (a : List α) (first last : Nat) : List α :=
  (List.range (last - first)).map (fun t => aget a (first + t))

@[simp] theorem length_sliceL (a : List α) (first last : Nat) :
    (sliceL a first last).length = last - first := by
  simp [sliceL]

theorem sliceL_congr {a b : List α} {first last : Nat}
    (h : ∀ i, first ≤ i → i < last → aget a i = aget b i) :
    sliceL a first last = sliceL b first last := by
  unfold sliceL
  apply List.map_congr_left
  intro t ht
  have := List.mem_range.mp ht
  exact h (first + t) (by omega) (by omega)

theorem sliceL_split (a : List α) {first mid last : Nat}
    (h1 : first ≤ mid) (h2 : mid ≤ last) :
    sliceL a first last = sliceL a first mid ++ sliceL a mid last := by
  unfold sliceL
  have hsum : last - first = (mid - first) + (last - mid) := by omega
  rw [hsum, List.range_add, List.map_append, List.map_map]
  congr 1
  apply List.map_congr_left
  intro t _
  simp only [Function.comp]
  congr 1
  omega

theorem sliceL_self (a : List α) : sliceL a 0 a.length = a := by
  apply List.ext_getElem
  · simp
  · intro i h1 h2
    simp only [sliceL]
    rw [List.getElem_map, List.getElem_range]
    simpa using aget_eq_getElem a i (by simpa using h2)

theorem mem_sliceL (a : List α) {first last i : Nat}
    (h1 : first ≤ i) (h2 : i < last) :
    aget a i ∈ sliceL a first last := by
  unfold sliceL
  apply List.mem_map.mpr
  exact ⟨i - first, List.mem_range.mpr (by omega), by congr 1; omega⟩

theorem of_mem_sliceL {a : List α} {first last : Nat} {x : α}
    (h : x ∈ sliceL a first last) :
    ∃ i, first ≤ i ∧ i < last ∧ x = aget a i := by
  unfold sliceL at h
  obtain ⟨t, ht, rfl⟩ := List.mem_map.mp h
  have := List.mem_range.mp ht
  exact ⟨first + t, by omega, by omega, rfl⟩

/-- RangeOp first last a b states that b is obtained from a by an operation
confined to the window of positions from first (inclusive) to last
(exclusive): b is a permutation of a, and every position outside the window
is untouched. -/
def RangeOp (first last : Nat) (a b : List α) : Prop :=
  b.Perm a ∧ ∀ i, i < first ∨ last ≤ i → aget b i = aget a i

theorem RangeOp.refl (first last : Nat) (a : List α) : RangeOp first last a a :=
  ⟨List.Perm.refl a, fun _ _ => rfl⟩

theorem RangeOp.length {first last : Nat} {a b : List α}
    (h : RangeOp first last a b) : b.length = a.length :=
  h.1.length_eq

theorem RangeOp.perm {first last : Nat} {a b : List α}
    (h : RangeOp first last a b) : b.Perm a := h.1

theorem RangeOp.frame {first last : Nat} {a b : List α}
    (h : RangeOp first last a b) :
    ∀ i, i < first ∨ last ≤ i → aget b i = aget a i := h.2

theorem RangeOp.trans {first last : Nat} {a b c : List α}
    (h1 : RangeOp first last a b) (h2 : RangeOp first last b c) :
    RangeOp first last a c :=
  ⟨h2.1.trans h1.1, fun i hi => (h2.2 i hi).trans (h1.2 i hi)⟩

theorem RangeOp.mono {first last first2 last2 : Nat} {a b : List α}
    (h : RangeOp first2 last2 a b) (hf : first ≤ first2) (hl : last2 ≤ last) :
    RangeOp first last a b := by
  refine ⟨h.1, fun i hi => h.2 i ?_⟩
  omega

theorem RangeOp.swapA {first last : Nat} (a : List α) {i j : Nat}
    (hi1 : first ≤ i) (hi2 : i < last) (hj1 : first ≤ j) (hj2 : j < last)
    (hi : i < a.length) (hj : j < a.length) :
    RangeOp first last a (swapA a i j) := by
  refine ⟨swapA_perm a i j hi hj, fun k hk => ?_⟩
  exact aget_swapA_ne a i j k (by omega) (by omega)

theorem RangeOp.slicePerm {first last : Nat} {a b : List α}
    (h : RangeOp first last a b) (hfl : first ≤ last) (hl : last ≤ a.length) :
    (sliceL b first last).Perm (sliceL a first last) := by
  have hlen : b.length = a.length := h.length
  have hfront : sliceL b 0 first = sliceL a 0 first :=
    sliceL_congr (fun i _ h2 => h.2 i (Or.inl h2))
  have hback : sliceL b last b.length = sliceL a last a.length := by
    rw [hlen]
    exact sliceL_congr (fun i h1 _ => h.2 i (Or.inr h1))
  have hwhole : (sliceL a 0 first ++ (sliceL b first last ++ sliceL a last a.length)).Perm
      (sliceL a 0 first ++ (sliceL a first last ++ sliceL a last a.length)) := by
    have hb := h.1
    rw [← sliceL_self b, ← sliceL_self a,
      sliceL_split b (Nat.zero_le first) (by omega),
      sliceL_split b hfl (by omega),
      sliceL_split a (Nat.zero_le first) (by omega),
      sliceL_split a hfl (by omega), hfront, hback] at hb
    exact hb
  have h1 := (List.perm_append_left_iff _).mp hwhole
  exact (List.perm_append_right_iff _).mp h1

theorem RangeOp.forall_window {first last : Nat} {a b : List α}
    (h : RangeOp first last a b) (hfl : first ≤ last) (hl : last ≤ a.length)
    (P : α → Prop) (hp : ∀ i, first ≤ i → i < last → P (aget a i)) :
    ∀ i, first ≤ i → i < last → P (aget b i) := by
  intro i h1 h2
  have hmem : aget b i ∈ sliceL b first last := mem_sliceL b h1 h2
  have hperm := h.slicePerm hfl hl
  have hmem2 : aget b i ∈ sliceL a first last := hperm.subset hmem
  obtain ⟨j, hj1, hj2, hj3⟩ := of_mem_sliceL hmem2
  rw [hj3]
  exact hp j hj1 hj2

/-- Pairwise non-decreasing on the window of positions from first
(inclusive) to last (exclusive): no later element is less than an earlier
one. -/
def PairwiseLE (lt : α → α → Bool) (a : List α) (first last : Nat) : Prop :=
  ∀ i j, first ≤ i → i < j → j < last → lt (aget a j) (aget a i) = false

/-- The comparator contract of the library: a strict weak order, given by
irreflexivity, asymmetry, transitivity, and transitivity of the negation. -/
structure IsSWO (lt : α → α → Bool) : Prop where
  irrefl : ∀ x, lt x x = false
  asymm : ∀ x y, lt x y = true → lt y x = false
  trans : ∀ x y z, lt x y = true → lt y z = true → lt x z = true
  negtrans : ∀ x y z, lt x y = false → lt y z = false → lt x z = false

/-!
Embedding of src/quicksort_mm.hh, the plain C++ variant.  Iterators become
positions; the value comparisons are rendered through the boolean less-than
predicate lt.
-/

/-- Median of the three elements at positions i, j, k, following the
comparison cascade of the source; returns the chosen position; the sequence
is read, never written. -/
def median3 (lt : α → α → Bool) (a : List α) (i j k : Nat) : Nat :=
  if lt (aget a i) (aget a j) then
    (if lt (aget a j) (aget a k) then j
     else if lt (aget a i) (aget a k) then k else i)
  else
    (if lt (aget a i) (aget a k) then i
     else if lt (aget a j) (aget a k) then k else j)

/-- Median of the five elements at positions p1 .. p5, following the swap
network of the source, which shuffles the iterators, not the elements; the
sequence is read, never written. -/
def median5 (lt : α → α → Bool) (a : List α) (p1 p2 p3 p4 p5 : Nat) : Nat :=
  let s1 := if lt (aget a p2) (aget a p1) then (p2, p1) else (p1, p2)
  let s2 := if lt (aget a p4) (aget a p3) then (p4, p3) else (p3, p4)
  let s3 := if lt (aget a s2.1) (aget a s1.1) then (s2.1, s2.2, s1.1, s1.2)
            else (s1.1, s1.2, s2.1, s2.2)
  let b := s3.2.1
  let c := s3.2.2.1
  let d := s3.2.2.2
  let s4 := if lt (aget a p5) (aget a b) then (p5, b) else (b, p5)
  let b2 := s4.1
  let e2 := s4.2
  if lt (aget a c) (aget a b2) then
    (if lt (aget a d) (aget a b2) then d else b2)
  else
    (if lt (aget a e2) (aget a c) then e2 else c)

/-- Inner do-while loop of the insertion sort: shift elements one slot to
the right while the saved target is less than the element before the
cursor, then store the target.  The hypothesis mirrors the loop invariant
first < cursor maintained by the source. -/
def insSortInner (lt : α → α → Bool) (a : List α) (first : Nat) (target : α)
    (cursor : Nat) (h : first < cursor) : List α :=
  let a1 := a.set cursor (aget a (cursor - 1))
  if h2 : first ≠ cursor - 1 ∧ lt target (aget a1 (cursor - 1 - 1)) = true then
    insSortInner lt a1 first target (cursor - 1) (by omega)
  else
    a1.set (cursor - 1) target
termination_by cursor

/-- Outer loop of the insertion sort, advancing the current position from
first + 1 to last.  The hypothesis first < current holds at the entry call
and is preserved by the increment. -/
def insSortOuter (lt : α → α → Bool) (a : List α) (first last current : Nat)
    (hfc : first < current) : List α :=
  if h : current < last then
    let a2 :=
      if lt (aget a current) (aget a (current - 1)) = true then
        insSortInner lt a first (aget a current) current hfc
      else a
    insSortOuter lt a2 first last (current + 1) (by omega)
  else a
termination_by last - current

/-- Simple insertion sort on the window from first to last, as in the
source. -/
def insertion_sort (lt : α → α → Bool) (a : List α) (first last : Nat) :
    List α :=
  if first = last then a else insSortOuter lt a first last (first + 1) (by omega)

/-- Downward scan of the Hoare partition: decrement hi, stop when the
cursors meet or the scanned element is not greater than the pivot value.
Returns the final hi cursor; the meeting case is recognized by the result
being equal to lo.  Structural recursion on hi mirrors the strictly
decreasing cursor. -/
def scanHi (lt : α → α → Bool) (a : List α) (pv : α) (lo : Nat) :
    Nat → Nat
  | 0 => lo
  | h + 1 =>
    if h = lo then h
    else if lt pv (aget a h) then scanHi lt a pv lo h
    else h

/-- Upward scan of the Hoare partition: increment lo, stop when the cursors
meet or the scanned element is not less than the pivot value.  Returns the
final lo cursor; the meeting case is recognized by the result being equal
to hi.  On every reachable call lo < hi holds, so the guard lo + 1 < hi
coincides with the inequality test of the source. -/
def scanLo (lt : α → α → Bool) (a : List α) (pv : α) (hi lo : Nat) : Nat :=
  if lo + 1 < hi then
    (if lt (aget a (lo + 1)) pv then scanLo lt a pv hi (lo + 1) else lo + 1)
  else lo + 1
termination_by hi - lo

theorem scanHi_step {lt : α → α → Bool} {a : List α} {pv : α} {lo h : Nat}
    (h1 : ¬ h = lo) :
    scanHi lt a pv lo (h + 1) =
      if lt pv (aget a h) = true then scanHi lt a pv lo h else h := by
  simp [scanHi, h1]

theorem scanHi_lt {lt : α → α → Bool} {a : List α} {pv : α} {lo : Nat} :
    ∀ {hi : Nat}, scanHi lt a pv lo hi ≠ lo → scanHi lt a pv lo hi < hi
  | 0, h => by simp [scanHi] at h
  | h + 1, hne => by
      by_cases h1 : h = lo
      · exfalso
        apply hne
        simp [scanHi, h1]
      · rw [scanHi_step h1] at hne ⊢
        by_cases h2 : lt pv (aget a h) = true
        · rw [if_pos h2] at hne ⊢
          exact Nat.lt_succ_of_lt (scanHi_lt hne)
        · rw [if_neg h2] at hne ⊢
          omega

theorem scanHi_ge {lt : α → α → Bool} {a : List α} {pv : α} {lo : Nat} :
    ∀ {hi : Nat}, lo < hi → lo ≤ scanHi lt a pv lo hi
  | 0, h => by omega
  | h + 1, hlt => by
      by_cases h1 : h = lo
      · simp [scanHi, h1]
      · rw [scanHi_step h1]
        by_cases h2 : lt pv (aget a h) = true
        · rw [if_pos h2]
          exact scanHi_ge (by omega)
        · rw [if_neg h2]
          omega

theorem scanLo_bounds {lt : α → α → Bool} {a : List α} {pv : α} {hi lo : Nat}
    (hlt : lo < hi) :
    lo < scanLo lt a pv hi lo ∧ scanLo lt a pv hi lo ≤ hi := by
  unfold scanLo
  by_cases h1 : lo + 1 < hi
  · rw [if_pos h1]
    by_cases h2 : lt (aget a (lo + 1)) pv = true
    · rw [if_pos h2]
      have := @scanLo_bounds lt a pv _ _ h1
      omega
    · rw [if_neg h2]
      omega
  · rw [if_neg h1]
    omega
termination_by hi - lo

/-- Outer loop of the Hoare partition: run the downward scan, then the
upward scan, exchange the out-of-order pair and repeat; stop when the
cursors meet.  The pivot value pv is pinned at the position before lo at
every reachable call and is never moved by the loop. -/
def partitionLoop (lt : α → α → Bool) (a : List α) (pv : α) (lo hi : Nat) :
    List α × Nat :=
  let h := scanHi lt a pv lo hi
  if h1 : h = lo then (a, lo)
  else
    let l := scanLo lt a pv h lo
    if l = h then (a, l)
    else partitionLoop lt (swapA a l h) pv l h
termination_by hi
decreasing_by exact scanHi_lt h1

/-- Hoare partition on the window from first to last around the designated
pivot position: move the pivot value to the front, scan inward from both
ends, and finally exchange the pivot into the meeting position, which is
returned. -/
def partition (lt : α → α → Bool) (a : List α) (first last pivot : Nat) :
    List α × Nat :=
  let a1 := if first ≠ pivot then swapA a first pivot else a
  let pv := aget a1 first
  let r := partitionLoop lt a1 pv first last
  (swapA r.1 first r.2, r.2)

theorem partitionLoop_eq_meet {lt : α → α → Bool} {a : List α} {pv : α}
    {lo hi : Nat} (h1 : scanHi lt a pv lo hi = lo) :
    partitionLoop lt a pv lo hi = (a, lo) := by
  unfold partitionLoop
  simp [h1]

theorem partitionLoop_eq_cross {lt : α → α → Bool} {a : List α} {pv : α}
    {lo hi : Nat} (h1 : ¬ scanHi lt a pv lo hi = lo)
    (h2 : scanLo lt a pv (scanHi lt a pv lo hi) lo = scanHi lt a pv lo hi) :
    partitionLoop lt a pv lo hi =
      (a, scanLo lt a pv (scanHi lt a pv lo hi) lo) := by
  unfold partitionLoop
  simp [h1, h2]

theorem partitionLoop_eq_swap {lt : α → α → Bool} {a : List α} {pv : α}
    {lo hi : Nat} (h1 : ¬ scanHi lt a pv lo hi = lo)
    (h2 : ¬ scanLo lt a pv (scanHi lt a pv lo hi) lo = scanHi lt a pv lo hi) :
    partitionLoop lt a pv lo hi =
      partitionLoop lt
        (swapA a (scanLo lt a pv (scanHi lt a pv lo hi) lo) (scanHi lt a pv lo hi))
        pv (scanLo lt a pv (scanHi lt a pv lo hi) lo) (scanHi lt a pv lo hi) := by
  conv_lhs => unfold partitionLoop
  simp [h1, h2]

theorem partitionLoop_pos {lt : α → α → Bool} {a : List α} {pv : α}
    {lo hi : Nat} (hlt : lo < hi) :
    lo ≤ (partitionLoop lt a pv lo hi).2 ∧ (partitionLoop lt a pv lo hi).2 < hi := by
  by_cases h1 : scanHi lt a pv lo hi = lo
  · rw [partitionLoop_eq_meet h1]
    exact ⟨Nat.le_refl lo, hlt⟩
  · have hh := scanHi_lt h1
    have hg := @scanHi_ge α _ lt a pv _ _ hlt
    have hlo2 : lo < scanHi lt a pv lo hi := by omega
    have hsl := @scanLo_bounds α _ lt a pv _ _ hlo2
    by_cases h2 : scanLo lt a pv (scanHi lt a pv lo hi) lo = scanHi lt a pv lo hi
    · rw [partitionLoop_eq_cross h1 h2]
      exact ⟨by omega, by omega⟩
    · rw [partitionLoop_eq_swap h1 h2]
      have hrec := @partitionLoop_pos lt
        (swapA a (scanLo lt a pv (scanHi lt a pv lo hi) lo) (scanHi lt a pv lo hi))
        pv (scanLo lt a pv (scanHi lt a pv lo hi) lo)
        (scanHi lt a pv lo hi) (by omega)
      exact ⟨by omega, by omega⟩
termination_by hi
decreasing_by exact scanHi_lt h1

theorem partition_pos {lt : α → α → Bool} {a : List α}
    {first last pivot : Nat} (h : first < last) :
    first ≤ (partition lt a first last pivot).2 ∧
      (partition lt a first last pivot).2 < last := by
  unfold partition
  exact partitionLoop_pos h

theorem partition_sub_lt_right {lt : α → α → Bool} {a : List α}
    {first last pivot : Nat} (h : first < last) :
    last - ((partition lt a first last pivot).2 + 1) < last - first := by
  have := @partition_pos α _ lt a _ _ pivot h
  omega

theorem partition_sub_lt_left {lt : α → α → Bool} {a : List α}
    {first last pivot : Nat} (h : first < last) :
    (partition lt a first last pivot).2 - first < last - first := by
  have := @partition_pos α _ lt a _ _ pivot h
  omega

theorem partition_sub_lt_left2 {lt : α → α → Bool} {a : List α}
    {first last pivot : Nat} (h : first < last) :
    first + ((partition lt a first last pivot).2 - first) - first <
      last - first := by
  have := @partition_pos α _ lt a _ _ pivot h
  omega

/-- Deposit loop of the repeated-step pivot selector: for each group index
i below nnext, combine five medians of three by a median of five and
exchange the resulting pseudo-median into the staging band slot q + i. -/
def depositLoop (lt : α → α → Bool) (a : List α) (p q r nnext i : Nat) :
    List α :=
  if i < nnext then
    depositLoop lt
      (if median5 lt a
          (median3 lt a (p + i * 7 + 0) (p + i * 7 + 1) (p + i * 7 + 2))
          (median3 lt a (p + i * 7 + 3) (p + i * 7 + 4) (p + i * 7 + 5))
          (median3 lt a (p + i * 7 + 6) (q + i) (r + i * 7 + 0))
          (median3 lt a (r + i * 7 + 1) (r + i * 7 + 2) (r + i * 7 + 3))
          (median3 lt a (r + i * 7 + 4) (r + i * 7 + 5) (r + i * 7 + 6)) ≠ q + i
       then
        swapA a
          (median5 lt a
            (median3 lt a (p + i * 7 + 0) (p + i * 7 + 1) (p + i * 7 + 2))
            (median3 lt a (p + i * 7 + 3) (p + i * 7 + 4) (p + i * 7 + 5))
            (median3 lt a (p + i * 7 + 6) (q + i) (r + i * 7 + 0))
            (median3 lt a (r + i * 7 + 1) (r + i * 7 + 2) (r + i * 7 + 3))
            (median3 lt a (r + i * 7 + 4) (r + i * 7 + 5) (r + i * 7 + 6)))
          (q + i)
       else a)
      p q r nnext (i + 1)
  else a
termination_by nnext - i

theorem flt_of_rank {first last k : Nat} (hk : k < last - first) :
    first < last := by omega

theorem rank_right_lt {first last k px : Nat} (hpx1 : first ≤ px)
    (hpx2 : px < last) (h1 : px - first < k) (hk : k < last - first) :
    k - (px - first) - 1 < last - (px + 1) := by omega

theorem rank_left_lt {first k px : Nat} (h2 : k < px - first) :
    k < first + (px - first) - first := by omega

theorem band_rank_lt {first last s : Nat} (hs : 0 < s)
    (h3 : ¬ (last - first < Nat.max (30 * s) 200)) :
    (last - first) / (15 * s) / 2 <
      first + 7 * ((last - first) / 15) + (last - first) / (15 * s) -
        (first + 7 * ((last - first) / 15)) := by
  have h30 : 30 * s ≤ last - first :=
    le_trans (Nat.le_max_left _ _) (Nat.le_of_not_lt h3)
  have h2 : 2 ≤ (last - first) / (15 * s) :=
    (Nat.le_div_iff_mul_le (by omega)).mpr (by omega)
  have h4 : (last - first) / (15 * s) / 2 < (last - first) / (15 * s) :=
    Nat.div_lt_self (by omega) (by omega)
  omega

mutual

/-- Repeated-step pivot selector rs3_5_2_select_pivot of the source, with
the thinning template argument s; the static assertion that s is positive
becomes the hypothesis hs.  Returns the updated sequence together with the
chosen pivot position.  The staging band starts at position
q = first + 7 * (nelem / 15) and holds nnext = nelem / (15 * s) slots; the
final tier hands the band to the quickselect core with rank nnext / 2 and
thinning 2, exactly as the default template argument of the source. -/
def rs3_5_2_select_pivot (lt : α → α → Bool) (a : List α)
    (first last s : Nat) (hs : 0 < s) : List α × Nat :=
  if last - first < 15 then (a, first + (last - first) / 2)
  else if last - first < 80 then
    (a, median3 lt a first (first + (last - first) / 2) (last - 1))
  else if h3 : last - first < Nat.max (30 * s) 200 then
    (a, median5 lt a first (first + (last - first) / 4)
      (first + (last - first) / 2) (first + 3 * (last - first) / 4) (last - 1))
  else
    rs3_5_2_select_kth lt
      (depositLoop lt a (first + 0 * ((last - first) / 15))
        (first + 7 * ((last - first) / 15))
        (last - 7 * ((last - first) / (15 * s)))
        ((last - first) / (15 * s)) 0)
      (first + 7 * ((last - first) / 15))
      (first + 7 * ((last - first) / 15) + (last - first) / (15 * s))
      ((last - first) / (15 * s) / 2) 2 (Nat.succ_pos 1)
      (band_rank_lt hs h3)
  termination_by (last - first, 0)
  decreasing_by
  · apply Prod.Lex.left
    have h200 : 200 ≤ last - first :=
      le_trans (Nat.le_max_right (30 * s) 200) (Nat.le_of_not_lt h3)
    have hd : (last - first) / (15 * s) < last - first :=
      Nat.div_lt_self (by omega) (by omega)
    omega

/-- Quickselect core rs3_5_2_select_kth of the source.  The hypothesis hk
records that the requested rank lies inside the window, which holds at the
guarded entry point and is preserved by every internal call; hs is the
positivity of the thinning template argument.  The recursive calls pass
thinning 2, the default template argument of the source. -/
def rs3_5_2_select_kth (lt : α → α → Bool) (a : List α)
    (first last k s : Nat) (hs : 0 < s) (hk : k < last - first) :
    List α × Nat :=
  if last - first = 1 then (a, first)
  else if last - first = 2 then
    (if lt (aget a (first + 1)) (aget a first) then swapA a first (first + 1)
     else a, first + k)
  else
    let sel := rs3_5_2_select_pivot lt a first last s hs
    let pr := partition lt sel.1 first last sel.2
    if h1 : pr.2 - first < k then
      rs3_5_2_select_kth lt pr.1 (pr.2 + 1) last (k - (pr.2 - first) - 1) 2
        (Nat.succ_pos 1)
        (rank_right_lt
          (@partition_pos α _ lt sel.1 first last sel.2 (flt_of_rank hk)).1
          (@partition_pos α _ lt sel.1 first last sel.2 (flt_of_rank hk)).2
          h1 hk)
    else if h2 : k < pr.2 - first then
      rs3_5_2_select_kth lt pr.1 first (first + (pr.2 - first)) k 2
        (Nat.succ_pos 1)
        (rank_left_lt h2)
    else (pr.1, pr.2)
  termination_by (last - first, 1)
  decreasing_by
  all_goals
    first
      | exact Prod.Lex.right _ (by omega)
      | exact Prod.Lex.left _ _ (partition_sub_lt_right (by omega))
      | exact Prod.Lex.left _ _ (partition_sub_lt_left2 (by omega))

end

/-- Quicksort driver of the source: insertion sort below 24 elements,
otherwise pivot selection with thinning template argument 21, partition,
and recursion into both sides, the order of the two calls decided by the
pointer-difference comparison of the source. -/
def quicksort (lt : α → α → Bool) (a : List α) (first last : Nat) : List α :=
  if h24 : last - first < 24 then insertion_sort lt a first last
  else
    let sel := rs3_5_2_select_pivot lt a first last 21 (Nat.succ_pos 20)
    let pr := partition lt sel.1 first last sel.2
    if last - pr.2 < pr.2 - first then
      quicksort lt (quicksort lt pr.1 (pr.2 + 1) last) first pr.2
    else
      quicksort lt (quicksort lt pr.1 first pr.2) (pr.2 + 1) last
termination_by last - first
decreasing_by
all_goals
  first
    | exact partition_sub_lt_right (by omega)
    | exact partition_sub_lt_left (by omega)

/-- Quickselect entry point of the source: compute the rank from the kth
iterator, return untouched when the rank is out of range, otherwise run
the quickselect core with thinning template argument 21. -/
def quickselect (lt : α → α → Bool) (a : List α) (first kth last : Nat) :
    List α :=
  if h : last - first ≤ kth - first then a
  else
    (rs3_5_2_select_kth lt a first last (kth - first) 21 (Nat.succ_pos 20)
      (Nat.lt_of_not_le h)).1

theorem median3_mem (lt : α → α → Bool) (a : List α) (i j k : Nat) :
    median3 lt a i j k = i ∨ median3 lt a i j k = j ∨ median3 lt a i j k = k := by
  unfold median3
  split_ifs <;> simp

theorem median5_mem (lt : α → α → Bool) (a : List α) (p1 p2 p3 p4 p5 : Nat) :
    median5 lt a p1 p2 p3 p4 p5 = p1 ∨ median5 lt a p1 p2 p3 p4 p5 = p2 ∨
    median5 lt a p1 p2 p3 p4 p5 = p3 ∨ median5 lt a p1 p2 p3 p4 p5 = p4 ∨
    median5 lt a p1 p2 p3 p4 p5 = p5 := by
  unfold median5
  dsimp only
  split_ifs <;> simp

theorem scanHi_gt {lt : α → α → Bool} {a : List α} {pv : α} {lo : Nat} :
    ∀ {hi : Nat} (i : Nat), scanHi lt a pv lo hi < i → i < hi →
      lt pv (aget a i) = true
  | 0, i, _, h2 => by omega
  | h + 1, i, hgt, hlt => by
      by_cases h1 : h = lo
      · have : scanHi lt a pv lo (h + 1) = h := by simp [scanHi, h1]
        rw [this] at hgt
        omega
      · rw [scanHi_step h1] at hgt
        by_cases h2 : lt pv (aget a h) = true
        · rw [if_pos h2] at hgt
          rcases Nat.lt_or_ge i (h + 1) with hc | hc
          · rcases Nat.lt_or_ge i h with hc2 | hc2
            · exact scanHi_gt i hgt hc2
            · have : i = h := by omega
              rw [this]
              exact h2
          · omega
        · rw [if_neg h2] at hgt
          omega

theorem scanHi_break {lt : α → α → Bool} {a : List α} {pv : α} {lo : Nat} :
    ∀ {hi : Nat}, scanHi lt a pv lo hi ≠ lo →
      lt pv (aget a (scanHi lt a pv lo hi)) = false
  | 0, hne => by simp [scanHi] at hne
  | h + 1, hne => by
      by_cases h1 : h = lo
      · exfalso
        apply hne
        simp [scanHi, h1]
      · rw [scanHi_step h1] at hne ⊢
        by_cases h2 : lt pv (aget a h) = true
        · rw [if_pos h2] at hne ⊢
          exact scanHi_break hne
        · rw [if_neg h2] at hne ⊢
          exact Bool.not_eq_true _ ▸ h2

theorem scanLo_mid {lt : α → α → Bool} {a : List α} {pv : α} {hi : Nat} :
    ∀ {lo : Nat}, lo < hi → ∀ i, lo < i → i < scanLo lt a pv hi lo →
      lt (aget a i) pv = true := by
  intro lo
  intro hlh i hgt hlt
  rw [scanLo] at hlt
  by_cases h1 : lo + 1 < hi
  · rw [if_pos h1] at hlt
    by_cases h2 : lt (aget a (lo + 1)) pv = true
    · rw [if_pos h2] at hlt
      rcases Nat.lt_or_ge (lo + 1) i with hc | hc
      · exact scanLo_mid h1 i hc hlt
      · have : i = lo + 1 := by omega
        rw [this]
        exact h2
    · rw [if_neg h2] at hlt
      omega
  · rw [if_neg h1] at hlt
    omega
termination_by lo => hi - lo

theorem scanLo_break {lt : α → α → Bool} {a : List α} {pv : α} {hi : Nat} :
    ∀ {lo : Nat}, lo < hi → scanLo lt a pv hi lo ≠ hi →
      lt (aget a (scanLo lt a pv hi lo)) pv = false := by
  intro lo hlh hne
  rw [scanLo] at hne ⊢
  by_cases h1 : lo + 1 < hi
  · rw [if_pos h1] at hne ⊢
    by_cases h2 : lt (aget a (lo + 1)) pv = true
    · rw [if_pos h2] at hne ⊢
      exact scanLo_break h1 hne
    · rw [if_neg h2] at hne ⊢
      exact Bool.not_eq_true _ ▸ h2
  · exfalso
    apply hne
    rw [if_neg h1]
    omega
termination_by lo => hi - lo

theorem partitionLoop_spec {lt : α → α → Bool} (hswo : IsSWO lt)
    {a : List α} {pv : α} {first last lo hi : Nat}
    (hfirst : aget a first = pv)
    (hflo : first ≤ lo) (hhil : hi ≤ last) (hlast : last ≤ a.length)
    (hlh : lo < hi)
    (hIL : ∀ i, first ≤ i → i ≤ lo → lt pv (aget a i) = false)
    (hIH : ∀ i, hi ≤ i → i < last → lt (aget a i) pv = false) :
    RangeOp first last a (partitionLoop lt a pv lo hi).1 ∧
    aget (partitionLoop lt a pv lo hi).1 first = pv ∧
    (∀ i, first ≤ i → i ≤ (partitionLoop lt a pv lo hi).2 →
      lt pv (aget (partitionLoop lt a pv lo hi).1 i) = false) ∧
    (∀ i, (partitionLoop lt a pv lo hi).2 < i → i < last →
      lt (aget (partitionLoop lt a pv lo hi).1 i) pv = false) := by
  by_cases h1 : scanHi lt a pv lo hi = lo
  · rw [partitionLoop_eq_meet h1]
    dsimp only
    refine ⟨RangeOp.refl _ _ _, hfirst, fun i hi1 hi2 => hIL i hi1 hi2, ?_⟩
    intro i hgt hlt2
    rcases Nat.lt_or_ge i hi with hc | hc
    · exact hswo.asymm _ _ (@scanHi_gt α _ lt a pv lo _ i (by omega) hc)
    · exact hIH i hc hlt2
  · have hsge := @scanHi_ge α _ lt a pv _ _ hlh
    have hslt := @scanHi_lt α _ lt a pv lo _ h1
    have hlo2 : lo < scanHi lt a pv lo hi := by omega
    have hb := scanHi_break h1
    have hsl := @scanLo_bounds α _ lt a pv _ _ hlo2
    by_cases h2 : scanLo lt a pv (scanHi lt a pv lo hi) lo = scanHi lt a pv lo hi
    · rw [partitionLoop_eq_cross h1 h2]
      dsimp only
      refine ⟨RangeOp.refl _ _ _, hfirst, ?_, ?_⟩
      · intro i hi1 hi2
        rcases Nat.lt_or_ge lo i with hc | hc
        · rcases Nat.lt_or_ge i (scanLo lt a pv (scanHi lt a pv lo hi) lo) with hc2 | hc2
          · exact hswo.asymm _ _ (scanLo_mid hlo2 i hc hc2)
          · have he : i = scanLo lt a pv (scanHi lt a pv lo hi) lo := by omega
            rw [he, h2]
            exact hb
        · exact hIL i hi1 hc
      · intro i hgt hlt2
        rw [h2] at hgt
        rcases Nat.lt_or_ge i hi with hc | hc
        · exact hswo.asymm _ _ (@scanHi_gt α _ lt a pv lo _ i (by omega) hc)
        · exact hIH i hc hlt2
    · rw [partitionLoop_eq_swap h1 h2]
      have hmid := fun i h3 h4 => @scanLo_mid α _ lt a pv _ _ hlo2 i h3 h4
      have hlb := scanLo_break hlo2 h2
      set hm := scanHi lt a pv lo hi with hhm
      set lm := scanLo lt a pv hm lo with hlm
      have hlmhm : lm < hm := by omega
      have hmlast : hm < last := by omega
      have hlmlen : lm < a.length := by omega
      have hhmlen : hm < a.length := by omega
      have hfirst2 : aget (swapA a lm hm) first = pv := by
        rw [aget_swapA_ne a lm hm first (by omega) (by omega)]
        exact hfirst
      have hIL2 : ∀ i, first ≤ i → i ≤ lm → lt pv (aget (swapA a lm hm) i) = false := by
        intro i hi1 hi2
        rcases Nat.lt_or_ge i lm with hc | hc
        · rw [aget_swapA_ne a lm hm i (by omega) (by omega)]
          rcases Nat.lt_or_ge lo i with hc2 | hc2
          · exact hswo.asymm _ _ (hmid i hc2 hc)
          · exact hIL i hi1 hc2
        · have he : i = lm := by omega
          rw [he, aget_swapA_left a lm hm hlmlen]
          exact hb
      have hIH2 : ∀ i, hm ≤ i → i < last → lt (aget (swapA a lm hm) i) pv = false := by
        intro i hi1 hi2
        rcases Nat.lt_or_ge hm i with hc | hc
        · rw [aget_swapA_ne a lm hm i (by omega) (by omega)]
          rcases Nat.lt_or_ge i hi with hc2 | hc2
          · exact hswo.asymm _ _ (@scanHi_gt α _ lt a pv lo _ i (by omega) hc2)
          · exact hIH i hc2 hi2
        · have he : i = hm := by omega
          rw [he, aget_swapA_right a lm hm hhmlen]
          exact hlb
      have hrec := partitionLoop_spec hswo hfirst2 (by omega : first ≤ lm)
        (by omega : hm ≤ last) (by rw [length_swapA]; exact hlast) hlmhm hIL2 hIH2
      have hsw : RangeOp first last a (swapA a lm hm) :=
        RangeOp.swapA a (by omega) (by omega) (by omega) (by omega) hlmlen hhmlen
      exact ⟨hsw.trans hrec.1, hrec.2.1, hrec.2.2.1, hrec.2.2.2⟩
termination_by hi
decreasing_by exact hslt

theorem partition_spec {lt : α → α → Bool} (hswo : IsSWO lt)
    {a : List α} {first last pivot : Nat}
    (hp1 : first ≤ pivot) (hp2 : pivot < last) (hlast : last ≤ a.length) :
    RangeOp first last a (partition lt a first last pivot).1 ∧
    first ≤ (partition lt a first last pivot).2 ∧
    (partition lt a first last pivot).2 < last ∧
    aget (partition lt a first last pivot).1 (partition lt a first last pivot).2
      = aget a pivot ∧
    (∀ i, first ≤ i → i < (partition lt a first last pivot).2 →
      lt (aget a pivot) (aget (partition lt a first last pivot).1 i) = false) ∧
    (∀ i, (partition lt a first last pivot).2 ≤ i → i < last →
      lt (aget (partition lt a first last pivot).1 i) (aget a pivot) = false) := by
  have hfl : first < last := by omega
  unfold partition
  dsimp only
  set a1 := if first ≠ pivot then swapA a first pivot else a with ha1
  set pv := aget a1 first with hpv
  have hpv2 : pv = aget a pivot := by
    rw [hpv, ha1]
    by_cases h : first ≠ pivot
    · rw [if_pos h]
      exact aget_swapA_left a first pivot (by omega)
    · rw [if_neg h]
      have he : first = pivot := by omega
      rw [he]
  have hr1 : RangeOp first last a a1 := by
    rw [ha1]
    by_cases h : first ≠ pivot
    · rw [if_pos h]
      exact RangeOp.swapA a (by omega) (by omega) (by omega) (by omega)
        (by omega) (by omega)
    · rw [if_neg h]
      exact RangeOp.refl _ _ _
  have hlen1 : a1.length = a.length := hr1.length
  have hloop := @partitionLoop_spec α _ lt hswo a1 pv first last first last
    (show aget a1 first = pv from hpv.symm) (Nat.le_refl first)
    (Nat.le_refl last) (by omega) hfl
    (by
      intro i hi1 hi2
      have he : i = first := by omega
      rw [he, ← hpv]
      exact hswo.irrefl pv)
    (by
      intro i hi1 hi2
      omega)
  have hpos := @partitionLoop_pos α _ lt a1 pv first last hfl
  obtain ⟨hR, hFv, hL, hRt⟩ := hloop
  have hblen : (partitionLoop lt a1 pv first last).1.length = a.length := by
    rw [hR.length, hlen1]
  refine ⟨?_, by omega, by omega, ?_, ?_, ?_⟩
  · refine (hr1.trans hR).trans ?_
    exact RangeOp.swapA _ (by omega) (by omega) (by omega) (by omega)
      (by omega) (by omega)
  · rw [aget_swapA_right _ _ _ (by omega), hFv, hpv2]
  · intro i hi1 hi2
    rw [← hpv2]
    by_cases hif : i = first
    · rw [hif, aget_swapA_left _ _ _ (by omega)]
      exact hL _ (by omega) (by omega)
    · rw [aget_swapA_ne _ _ _ _ (by omega) (by omega)]
      exact hL i hi1 (by omega)
  · intro i hi1 hi2
    rw [← hpv2]
    by_cases hip : i = (partitionLoop lt a1 pv first last).2
    · rw [hip, aget_swapA_right _ _ _ (by omega), hFv]
      exact hswo.irrefl pv
    · rw [aget_swapA_ne _ _ _ _ (by omega) (by omega)]
      exact hRt i (by omega) hi2

theorem median3_ge {lt : α → α → Bool} {a : List α} {lo i j k : Nat}
    (h1 : lo ≤ i) (h2 : lo ≤ j) (h3 : lo ≤ k) : lo ≤ median3 lt a i j k := by
  rcases median3_mem lt a i j k with h | h | h <;> omega

theorem median3_ub {lt : α → α → Bool} {a : List α} {hi i j k : Nat}
    (h1 : i < hi) (h2 : j < hi) (h3 : k < hi) : median3 lt a i j k < hi := by
  rcases median3_mem lt a i j k with h | h | h <;> omega

theorem median5_ge {lt : α → α → Bool} {a : List α} {lo p1 p2 p3 p4 p5 : Nat}
    (h1 : lo ≤ p1) (h2 : lo ≤ p2) (h3 : lo ≤ p3) (h4 : lo ≤ p4)
    (h5 : lo ≤ p5) : lo ≤ median5 lt a p1 p2 p3 p4 p5 := by
  rcases median5_mem lt a p1 p2 p3 p4 p5 with h | h | h | h | h <;> omega

theorem median5_ub {lt : α → α → Bool} {a : List α} {hi p1 p2 p3 p4 p5 : Nat}
    (h1 : p1 < hi) (h2 : p2 < hi) (h3 : p3 < hi) (h4 : p4 < hi)
    (h5 : p5 < hi) : median5 lt a p1 p2 p3 p4 p5 < hi := by
  rcases median5_mem lt a p1 p2 p3 p4 p5 with h | h | h | h | h <;> omega

theorem rangeOp_condSwap {first last : Nat} (a : List α) {x y : Nat}
    (c : Prop) [Decidable c]
    (hx1 : first ≤ x) (hx2 : x < last) (hy1 : first ≤ y) (hy2 : y < last)
    (hlx : x < a.length) (hly : y < a.length) :
    RangeOp first last a (if c then swapA a x y else a) := by
  split_ifs with h
  · exact RangeOp.swapA a hx1 hx2 hy1 hy2 hlx hly
  · exact RangeOp.refl _ _ _

theorem partitionLoop_rangeOp {lt : α → α → Bool} {a : List α} {pv : α}
    {first last lo hi : Nat} (hflo : first ≤ lo) (hhil : hi ≤ last)
    (hlast : last ≤ a.length) (hlh : lo < hi) :
    RangeOp first last a (partitionLoop lt a pv lo hi).1 := by
  by_cases h1 : scanHi lt a pv lo hi = lo
  · rw [partitionLoop_eq_meet h1]
    exact RangeOp.refl _ _ _
  · have hsge := @scanHi_ge α _ lt a pv _ _ hlh
    have hslt := @scanHi_lt α _ lt a pv lo _ h1
    have hlo2 : lo < scanHi lt a pv lo hi := by omega
    have hsl := @scanLo_bounds α _ lt a pv _ _ hlo2
    by_cases h2 : scanLo lt a pv (scanHi lt a pv lo hi) lo = scanHi lt a pv lo hi
    · rw [partitionLoop_eq_cross h1 h2]
      exact RangeOp.refl _ _ _
    · rw [partitionLoop_eq_swap h1 h2]
      refine RangeOp.trans
        (RangeOp.swapA a
          (i := scanLo lt a pv (scanHi lt a pv lo hi) lo)
          (j := scanHi lt a pv lo hi)
          (by omega) (by omega) (by omega) (by omega)
          (by omega) (by omega)) ?_
      exact partitionLoop_rangeOp (by omega) (by omega)
        (by rw [length_swapA]; exact hlast) (by omega)
termination_by hi
decreasing_by exact hslt

theorem partition_rangeOp {lt : α → α → Bool} {a : List α}
    {first last pivot : Nat}
    (hp1 : first ≤ pivot) (hp2 : pivot < last) (hlast : last ≤ a.length) :
    RangeOp first last a (partition lt a first last pivot).1 := by
  have hfl : first < last := by omega
  unfold partition
  dsimp only
  set a1 := if first ≠ pivot then swapA a first pivot else a with ha1
  set pv := aget a1 first with hpv
  have hr1 : RangeOp first last a a1 := by
    rw [ha1]
    by_cases h : first ≠ pivot
    · rw [if_pos h]
      exact RangeOp.swapA a (by omega) (by omega) (by omega) (by omega)
        (by omega) (by omega)
    · rw [if_neg h]
      exact RangeOp.refl _ _ _
  have hlen1 : a1.length = a.length := hr1.length
  have hr2 := @partitionLoop_rangeOp α _ lt a1 pv first last first last
    (Nat.le_refl first) (Nat.le_refl last) (by omega) hfl
  have hlen2 : (partitionLoop lt a1 pv first last).1.length = a.length := by
    rw [hr2.length, hlen1]
  have hpos := @partitionLoop_pos α _ lt a1 pv first last hfl
  refine (hr1.trans hr2).trans ?_
  exact RangeOp.swapA _ (by omega) (by omega) (by omega) (by omega)
    (by omega) (by omega)

theorem depositLoop_spec {lt : α → α → Bool} {first last : Nat}
    {a : List α} {p q r nnext i : Nat}
    (hp : first ≤ p) (hpn : p + 7 * nnext ≤ last)
    (hq : first ≤ q) (hqn : q + nnext ≤ last)
    (hr : first ≤ r) (hrn : r + 7 * nnext ≤ last)
    (hlast : last ≤ a.length) :
    RangeOp first last a (depositLoop lt a p q r nnext i) := by
  rw [depositLoop]
  by_cases h : i < nnext
  · rw [if_pos h]
    refine RangeOp.trans (rangeOp_condSwap a _ ?_ ?_ ?_ ?_ ?_ ?_)
      (depositLoop_spec hp hpn hq hqn hr hrn ?_)
    · apply median5_ge <;> apply median3_ge <;> omega
    · apply median5_ub <;> apply median3_ub <;> omega
    · omega
    · omega
    · apply median5_ub <;> apply median3_ub <;> omega
    · omega
    · split_ifs <;> simpa using hlast
  · rw [if_neg h]
    exact RangeOp.refl _ _ _
termination_by nnext - i

mutual

theorem rs3_5_2_select_pivot_spec {lt : α → α → Bool} {a : List α}
    {first last s : Nat} {hs : 0 < s}
    (hfl : first < last) (hlast : last ≤ a.length) :
    RangeOp first last a (rs3_5_2_select_pivot lt a first last s hs).1 ∧
    first ≤ (rs3_5_2_select_pivot lt a first last s hs).2 ∧
    (rs3_5_2_select_pivot lt a first last s hs).2 < last := by
  unfold rs3_5_2_select_pivot
  by_cases h1 : last - first < 15
  · rw [if_pos h1]
    exact ⟨RangeOp.refl _ _ _, by omega, by omega⟩
  · rw [if_neg h1]
    by_cases h2 : last - first < 80
    · rw [if_pos h2]
      refine ⟨RangeOp.refl _ _ _, ?_, ?_⟩
      · apply median3_ge <;> omega
      · apply median3_ub <;> omega
    · rw [if_neg h2]
      by_cases h3 : last - first < Nat.max (30 * s) 200
      · rw [dif_pos h3]
        refine ⟨RangeOp.refl _ _ _, ?_, ?_⟩
        · apply median5_ge <;> omega
        · apply median5_ub <;> omega
      · rw [dif_neg h3]
        have h200 : 200 ≤ last - first :=
          le_trans (Nat.le_max_right (30 * s) 200) (Nat.le_of_not_lt h3)
        have h30 : 30 * s ≤ last - first :=
          le_trans (Nat.le_max_left (30 * s) 200) (Nat.le_of_not_lt h3)
        have hAle : 15 * ((last - first) / 15) ≤ last - first := by omega
        have hBA : (last - first) / (15 * s) ≤ (last - first) / 15 :=
          Nat.div_le_div_left (by omega) (by omega)
        have hB2 : 2 ≤ (last - first) / (15 * s) :=
          (Nat.le_div_iff_mul_le (by omega)).mpr (by omega)
        have hdep : RangeOp first last a
            (depositLoop lt a (first + 0 * ((last - first) / 15))
              (first + 7 * ((last - first) / 15))
              (last - 7 * ((last - first) / (15 * s)))
              ((last - first) / (15 * s)) 0) :=
          depositLoop_spec (by omega) (by omega) (by omega) (by omega)
            (by omega) (by omega) hlast
        have hdlen : (depositLoop lt a (first + 0 * ((last - first) / 15))
              (first + 7 * ((last - first) / 15))
              (last - 7 * ((last - first) / (15 * s)))
              ((last - first) / (15 * s)) 0).length = a.length :=
          hdep.length
        have hrec := @rs3_5_2_select_kth_spec lt
          (depositLoop lt a (first + 0 * ((last - first) / 15))
              (first + 7 * ((last - first) / 15))
              (last - 7 * ((last - first) / (15 * s)))
              ((last - first) / (15 * s)) 0)
          (first + 7 * ((last - first) / 15))
          (first + 7 * ((last - first) / 15) + (last - first) / (15 * s))
          ((last - first) / (15 * s) / 2) 2
          (Nat.succ_pos 1)
          (band_rank_lt hs h3)
          (by omega)
        refine ⟨hdep.trans (hrec.1.mono (by omega) (by omega)), ?_, ?_⟩
        · rw [hrec.2]
          omega
        · rw [hrec.2]
          have := Nat.div_lt_self (n := (last - first) / (15 * s)) (k := 2)
            (by omega) (by omega)
          omega
  termination_by (last - first, 0)
  decreasing_by
  all_goals
    first
      | exact Prod.Lex.right _ (by omega)
      | exact Prod.Lex.left _ _ (partition_sub_lt_right (by omega))
      | exact Prod.Lex.left _ _ (partition_sub_lt_left2 (by omega))
      | (apply Prod.Lex.left
         have hd := Nat.div_lt_self (n := last - first) (k := 15 * s)
           (by omega) (by omega)
         omega)

theorem rs3_5_2_select_kth_spec {lt : α → α → Bool} {a : List α}
    {first last k s : Nat} {hs : 0 < s} {hk : k < last - first}
    (hlast : last ≤ a.length) :
    RangeOp first last a (rs3_5_2_select_kth lt a first last k s hs hk).1 ∧
    (rs3_5_2_select_kth lt a first last k s hs hk).2 = first + k := by
  unfold rs3_5_2_select_kth
  by_cases h1 : last - first = 1
  · rw [if_pos h1]
    exact ⟨RangeOp.refl _ _ _, by omega⟩
  · rw [if_neg h1]
    by_cases h2 : last - first = 2
    · rw [if_pos h2]
      refine ⟨?_, rfl⟩
      exact rangeOp_condSwap a _ (Nat.le_refl first) (by omega) (by omega)
        (by omega) (by omega) (by omega)
    · rw [if_neg h2]
      have hfl : first < last := by omega
      dsimp only
      have hsel := @rs3_5_2_select_pivot_spec lt a first last s hs hfl hlast
      have hlen1 : (rs3_5_2_select_pivot lt a first last s hs).1.length
          = a.length := hsel.1.length
      have hpart := @partition_rangeOp α _ lt
        (rs3_5_2_select_pivot lt a first last s hs).1
        first last
        (rs3_5_2_select_pivot lt a first last s hs).2
        hsel.2.1 hsel.2.2 (by omega)
      have hppos := @partition_pos α _ lt
        (rs3_5_2_select_pivot lt a first last s hs).1
        first last
        (rs3_5_2_select_pivot lt a first last s hs).2 hfl
      have hlen2 : (partition lt (rs3_5_2_select_pivot lt a first last s hs).1
          first last (rs3_5_2_select_pivot lt a first last s hs).2).1.length
          = a.length := by
        rw [hpart.length, hlen1]
      by_cases hb1 : (partition lt (rs3_5_2_select_pivot lt a first last s hs).1
          first last (rs3_5_2_select_pivot lt a first last s hs).2).2 - first < k
      · rw [dif_pos hb1]
        have hrec := @rs3_5_2_select_kth_spec lt
          ((partition lt (rs3_5_2_select_pivot lt a first last s hs).1
            first last (rs3_5_2_select_pivot lt a first last s hs).2).1)
          ((partition lt (rs3_5_2_select_pivot lt a first last s hs).1
            first last (rs3_5_2_select_pivot lt a first last s hs).2).2 + 1)
          last
          (k - ((partition lt (rs3_5_2_select_pivot lt a first last s hs).1
            first last (rs3_5_2_select_pivot lt a first last s hs).2).2 - first) - 1)
          2 (Nat.succ_pos 1) (rank_right_lt hppos.1 hppos.2 hb1 hk)
          (by omega)
        refine ⟨(hsel.1.trans hpart).trans (hrec.1.mono (by omega) (by omega)), ?_⟩
        rw [hrec.2]
        omega
      · rw [dif_neg hb1]
        by_cases hb2 : k < (partition lt
            (rs3_5_2_select_pivot lt a first last s hs).1
            first last (rs3_5_2_select_pivot lt a first last s hs).2).2 - first
        · rw [dif_pos hb2]
          have hrec := @rs3_5_2_select_kth_spec lt
            ((partition lt (rs3_5_2_select_pivot lt a first last s hs).1
              first last (rs3_5_2_select_pivot lt a first last s hs).2).1)
            first
            (first + ((partition lt
              (rs3_5_2_select_pivot lt a first last s hs).1
              first last (rs3_5_2_select_pivot lt a first last s hs).2).2 - first))
            k 2 (Nat.succ_pos 1) (rank_left_lt hb2)
            (by omega)
          refine ⟨(hsel.1.trans hpart).trans
            (hrec.1.mono (Nat.le_refl first) (by omega)), ?_⟩
          rw [hrec.2]
        · rw [dif_neg hb2]
          exact ⟨hsel.1.trans hpart, by omega⟩
  termination_by (last - first, 1)
  decreasing_by
  all_goals
    first
      | exact Prod.Lex.right _ (by omega)
      | exact Prod.Lex.left _ _ (partition_sub_lt_right (by omega))
      | exact Prod.Lex.left _ _ (partition_sub_lt_left2 (by omega))
      | (apply Prod.Lex.left
         have hd := Nat.div_lt_self (n := last - first) (k := 15 * s)
           (by omega) (by omega)
         omega)

end

theorem cons_set_cross (x y : α) :
    ∀ (t : List α) (j : Nat), j < t.length →
      (x :: t.set j y).Perm (y :: t.set j x)
  | [], j, hj => by simp at hj
  | b :: u, 0, _ => by
      simpa using List.Perm.swap y x u
  | b :: u, j + 1, hj => by
      have ih := cons_set_cross x y u j (by simpa using hj)
      have e1 : (b :: u).set (j + 1) y = b :: u.set j y := rfl
      have e2 : (b :: u).set (j + 1) x = b :: u.set j x := rfl
      rw [e1, e2]
      exact (List.Perm.swap b x (u.set j y)).trans
        ((ih.cons b).trans (List.Perm.swap y b (u.set j x)))

theorem set_set_cross (x y : α) :
    ∀ (a : List α) (i j : Nat), i < a.length → j < a.length → i ≠ j →
      ((a.set i x).set j y).Perm ((a.set i y).set j x)
  | [], i, j, hi, _, _ => by simp at hi
  | b :: t, 0, 0, _, _, hne => absurd rfl hne
  | b :: t, 0, j + 1, _, hj, _ => by
      have e1 : ((b :: t).set 0 x).set (j + 1) y = x :: t.set j y := rfl
      have e2 : ((b :: t).set 0 y).set (j + 1) x = y :: t.set j x := rfl
      rw [e1, e2]
      exact cons_set_cross x y t j (by simpa using hj)
  | b :: t, i + 1, 0, hi, _, _ => by
      have e1 : ((b :: t).set (i + 1) x).set 0 y = y :: t.set i x := rfl
      have e2 : ((b :: t).set (i + 1) y).set 0 x = x :: t.set i y := rfl
      rw [e1, e2]
      exact (cons_set_cross x y t i (by simpa using hi)).symm
  | b :: t, i + 1, j + 1, hi, hj, hne => by
      have ih := set_set_cross x y t i j (by simpa using hi) (by simpa using hj)
        (by omega)
      have e1 : ((b :: t).set (i + 1) x).set (j + 1) y
          = b :: (t.set i x).set j y := rfl
      have e2 : ((b :: t).set (i + 1) y).set (j + 1) x
          = b :: (t.set i y).set j x := rfl
      rw [e1, e2]
      exact ih.cons b

theorem insSortInner_spec {lt : α → α → Bool} (hswo : IsSWO lt)
    {cursor : Nat} {a : List α} {first : Nat} {target : α}
    (h : first < cursor) (hlen : cursor < a.length)
    (hsorted : ∀ i j, first ≤ i → i < j → j < cursor →
      lt (aget a j) (aget a i) = false)
    (hlt : lt target (aget a (cursor - 1)) = true) :
    (insSortInner lt a first target cursor h).Perm (a.set cursor target) ∧
    (insSortInner lt a first target cursor h).length = a.length ∧
    (∀ i, i < first ∨ cursor < i →
      aget (insSortInner lt a first target cursor h) i = aget a i) ∧
    (∀ i j, first ≤ i → i < j → j < cursor + 1 →
      lt (aget (insSortInner lt a first target cursor h) j)
        (aget (insSortInner lt a first target cursor h) i) = false) := by
  have hc1 : cursor - 1 < a.length := by omega
  have hget1 : aget (a.set cursor (aget a (cursor - 1))) (cursor - 1)
      = aget a (cursor - 1) := aget_set_ne _ _ _ _ (by omega)
  unfold insSortInner
  by_cases hcond : first ≠ cursor - 1 ∧
      lt target (aget (a.set cursor (aget a (cursor - 1))) (cursor - 1 - 1)) = true
  · rw [dif_pos hcond]
    have hne1 : first ≠ cursor - 1 := hcond.1
    have hlt2 : lt target (aget (a.set cursor (aget a (cursor - 1))) (cursor - 1 - 1))
        = true := hcond.2
    have hgetm : aget (a.set cursor (aget a (cursor - 1))) (cursor - 1 - 1)
        = aget a (cursor - 1 - 1) := aget_set_ne _ _ _ _ (by omega)
    have hsorted1 : ∀ i j, first ≤ i → i < j → j < cursor - 1 →
        lt (aget (a.set cursor (aget a (cursor - 1))) j)
          (aget (a.set cursor (aget a (cursor - 1))) i) = false := by
      intro i j hi hij hj
      rw [aget_set_ne _ _ _ _ (by omega), aget_set_ne _ _ _ _ (by omega)]
      exact hsorted i j hi hij (by omega)
    have ih := @insSortInner_spec lt hswo (cursor - 1)
      (a.set cursor (aget a (cursor - 1))) first target
      (by omega) (by simpa using hc1) hsorted1 hcond.2
    obtain ⟨ihp, ihl, ihf, ihs⟩ := ih
    have hcross : ((a.set cursor (aget a (cursor - 1))).set (cursor - 1)
        target).Perm (a.set cursor target) := by
      have h1 := set_set_cross (aget a (cursor - 1)) target a cursor (cursor - 1)
        hlen hc1 (by omega)
      refine h1.trans ?_
      have h2 : aget (a.set cursor target) (cursor - 1) = aget a (cursor - 1) :=
        aget_set_ne _ _ _ _ (by omega)
      rw [← h2, set_aget_self _ _ (by simpa using hc1)]
    have hperm : (insSortInner lt (a.set cursor (aget a (cursor - 1))) first
        target (cursor - 1) (by omega)).Perm (a.set cursor target) :=
      ihp.trans hcross
    refine ⟨hperm, by rw [ihl]; simp, ?_, ?_⟩
    · intro i hi
      rw [ihf i (by omega), aget_set_ne _ _ _ _ (by omega)]
    · -- sortedness on the window up to cursor + 1
      have hro : RangeOp first (cursor - 1 + 1)
          ((a.set cursor (aget a (cursor - 1))).set (cursor - 1) target)
          (insSortInner lt (a.set cursor (aget a (cursor - 1))) first target
            (cursor - 1) (by omega)) := by
        refine ⟨ihp, ?_⟩
        intro i hi
        rcases hi with hi | hi
        · rw [ihf i (Or.inl hi),
            aget_set_ne _ (cursor - 1) i _ (show i ≠ cursor - 1 by omega)]
        · rw [ihf i (Or.inr (by omega)),
            aget_set_ne _ (cursor - 1) i _ (show i ≠ cursor - 1 by omega)]
      have hwin := RangeOp.forall_window hro (by omega)
        (by simp; omega)
        (fun v => lt (aget a (cursor - 1)) v = false)
        (by
          intro i hi1 hi2
          by_cases hic : i = cursor - 1
          · rw [hic, aget_set_self _ _ _ (by simpa using hc1)]
            exact hswo.asymm _ _ hlt
          · rw [aget_set_ne _ _ _ _ hic, aget_set_ne _ _ _ _ (by omega)]
            exact hsorted i (cursor - 1) hi1 (by omega) (by omega))
      intro i j hi hij hj
      rcases Nat.lt_or_ge j cursor with hc | hc
      · exact ihs i j hi hij (by omega)
      · have hjc : j = cursor := by omega
        have hrc : aget (insSortInner lt (a.set cursor (aget a (cursor - 1)))
            first target (cursor - 1) (by omega)) cursor
            = aget a (cursor - 1) := by
          rw [ihf cursor (Or.inr (by omega)),
            aget_set_self _ _ _ hlen]
        rw [hjc, hrc]
        exact hwin i hi (by omega)
  · rw [dif_neg hcond]
    have hca : aget ((a.set cursor (aget a (cursor - 1))).set (cursor - 1)
        target) cursor = aget a (cursor - 1) := by
      rw [aget_set_ne _ _ _ _ (by omega), aget_set_self _ _ _ hlen]
    have hct : aget ((a.set cursor (aget a (cursor - 1))).set (cursor - 1)
        target) (cursor - 1) = target :=
      aget_set_self _ _ _ (by simpa using hc1)
    have hcother : ∀ i, i ≠ cursor → i ≠ cursor - 1 →
        aget ((a.set cursor (aget a (cursor - 1))).set (cursor - 1) target) i
          = aget a i := by
      intro i h1 h2
      rw [aget_set_ne _ _ _ _ h2, aget_set_ne _ _ _ _ h1]
    refine ⟨?_, by simp, ?_, ?_⟩
    · have h1 := set_set_cross (aget a (cursor - 1)) target a cursor (cursor - 1)
        hlen hc1 (by omega)
      refine h1.trans ?_
      have h2 : aget (a.set cursor target) (cursor - 1) = aget a (cursor - 1) :=
        aget_set_ne _ _ _ _ (by omega)
      rw [← h2, set_aget_self _ _ (by simpa using hc1)]
    · intro i hi
      exact hcother i (by omega) (by omega)
    · intro i j hi hij hj
      by_cases hjc : j = cursor
      · rw [hjc, hca]
        by_cases hic : i = cursor - 1
        · rw [hic, hct]
          exact hswo.asymm _ _ hlt
        · rw [hcother i (by omega) hic]
          exact hsorted i (cursor - 1) hi (by omega) (by omega)
      · have hjlt : j < cursor := by omega
        by_cases hjc1 : j = cursor - 1
        · rw [hjc1, hct]
          have hfc1 : first = cursor - 1 ∨
              lt target (aget a (cursor - 1 - 1)) = false := by
            by_cases hf : first = cursor - 1
            · exact Or.inl hf
            · right
              have := hcond
              rw [not_and] at this
              have h3 := this hf
              rw [aget_set_ne _ _ _ _ (by omega)] at h3
              exact Bool.not_eq_true _ ▸ h3
          rcases hfc1 with hf | hf
          · omega
          · rcases Nat.lt_or_ge i (cursor - 1 - 1) with hc | hc
            · refine hswo.negtrans _ _ _ hf ?_
              rw [hcother i (by omega) (by omega)]
              exact hsorted i (cursor - 1 - 1) hi (by omega) (by omega)
            · have : i = cursor - 1 - 1 := by omega
              rw [this, hcother _ (by omega) (by omega)]
              exact hf
        · rw [hcother j (by omega) hjc1, hcother i (by omega) (by omega)]
          exact hsorted i j hi hij (by omega)
termination_by cursor

theorem insSortOuter_spec {lt : α → α → Bool} (hswo : IsSWO lt)
    {current last : Nat} {a : List α} {first : Nat} (hfc : first < current)
    (hcl : current ≤ last) (hlast : last ≤ a.length)
    (hsorted : ∀ i j, first ≤ i → i < j → j < current →
      lt (aget a j) (aget a i) = false) :
    RangeOp first last a (insSortOuter lt a first last current hfc) ∧
    PairwiseLE lt (insSortOuter lt a first last current hfc) first last := by
  unfold insSortOuter
  by_cases h : current < last
  · rw [dif_pos h]
    dsimp only
    by_cases hcmp : lt (aget a current) (aget a (current - 1)) = true
    · rw [if_pos hcmp]
      have hin := @insSortInner_spec α _ lt hswo current a
        first (aget a current) hfc (by omega) hsorted hcmp
      obtain ⟨hip, hil, hif, his⟩ := hin
      have hpa : (insSortInner lt a first (aget a current) current hfc).Perm a := by
        have h2 := hip
        rwa [set_aget_self a current (by omega)] at h2
      have hro : RangeOp first last a
          (insSortInner lt a first (aget a current) current hfc) :=
        ⟨hpa, fun i hi => hif i (by omega)⟩
      have hrec := @insSortOuter_spec lt hswo
        (current + 1) last
        (insSortInner lt a first (aget a current) current hfc)
        first
        (by omega) (by omega) (by rw [hil]; exact hlast) his
      exact ⟨hro.trans hrec.1, hrec.2⟩
    · rw [if_neg hcmp]
      have hc0 : lt (aget a current) (aget a (current - 1)) = false :=
        Bool.not_eq_true _ ▸ hcmp
      have hsorted2 : ∀ i j, first ≤ i → i < j → j < current + 1 →
          lt (aget a j) (aget a i) = false := by
        intro i j hi hij hj
        rcases Nat.lt_or_ge j current with hc | hc
        · exact hsorted i j hi hij hc
        · have hjc : j = current := by omega
          rw [hjc]
          rcases Nat.lt_or_ge i (current - 1) with hci | hci
          · exact hswo.negtrans _ _ _ hc0
              (hsorted i (current - 1) hi (by omega) (by omega))
          · have he : i = current - 1 := by omega
            rw [he]
            exact hc0
      exact @insSortOuter_spec lt hswo (current + 1) last
        a first
        (by omega) (by omega) hlast hsorted2
  · rw [dif_neg h]
    refine ⟨RangeOp.refl _ _ _, ?_⟩
    intro i j hi hij hj
    exact hsorted i j hi hij (by omega)
termination_by last - current
decreasing_by
  all_goals omega

theorem insertion_sort_spec {lt : α → α → Bool} (hswo : IsSWO lt)
    {a : List α} {first last : Nat}
    (hfl : first ≤ last) (hlast : last ≤ a.length) :
    RangeOp first last a (insertion_sort lt a first last) ∧
    PairwiseLE lt (insertion_sort lt a first last) first last := by
  unfold insertion_sort
  by_cases h : first = last
  · rw [if_pos h]
    refine ⟨RangeOp.refl _ _ _, ?_⟩
    intro i j hi hij hj
    omega
  · rw [if_neg h]
    refine insSortOuter_spec hswo (by omega) (by omega) hlast ?_
    intro i j hi hij hj
    omega

theorem combine_sorted {lt : α → α → Bool} (hswo : IsSWO lt) {c : List α}
    {first pp last : Nat} {pv : α}
    (hfp : first ≤ pp) (hpl : pp < last)
    (hmid : aget c pp = pv)
    (hleft : ∀ i, first ≤ i → i < pp → lt pv (aget c i) = false)
    (hright : ∀ i, pp < i → i < last → lt (aget c i) pv = false)
    (hsl : PairwiseLE lt c first pp)
    (hsr : PairwiseLE lt c (pp + 1) last) :
    PairwiseLE lt c first last := by
  intro i j hi hij hj
  rcases Nat.lt_or_ge j pp with hjp | hjp
  · exact hsl i j hi hij hjp
  · rcases Nat.lt_or_ge pp j with hjp2 | hjp2
    · rcases Nat.lt_or_ge i pp with hip | hip
      · exact hswo.negtrans _ _ _ (hright j hjp2 hj) (hleft i hi hip)
      · rcases Nat.lt_or_ge pp i with hip2 | hip2
        · exact hsr i j hip2 hij hj
        · have he : i = pp := by omega
          rw [he, hmid]
          exact hright j hjp2 hj
    · have he : j = pp := by omega
      rw [he, hmid]
      exact hleft i hi (by omega)

theorem quicksort_spec {lt : α → α → Bool} (hswo : IsSWO lt)
    {a : List α} {first last : Nat}
    (hfl : first ≤ last) (hlast : last ≤ a.length) :
    RangeOp first last a (quicksort lt a first last) ∧
    PairwiseLE lt (quicksort lt a first last) first last := by
  unfold quicksort
  by_cases h24 : last - first < 24
  · rw [dif_pos h24]
    exact insertion_sort_spec hswo hfl hlast
  · rw [dif_neg h24]
    dsimp only
    have hfl2 : first < last := by omega
    have hsel := @rs3_5_2_select_pivot_spec α _ lt a first last 21
      (Nat.succ_pos 20) hfl2 hlast
    have hlen1 : (rs3_5_2_select_pivot lt a first last 21 (Nat.succ_pos 20)).1.length
        = a.length := hsel.1.length
    have hpart := @partition_spec α _ lt hswo
      (rs3_5_2_select_pivot lt a first last 21 (Nat.succ_pos 20)).1
      first last
      (rs3_5_2_select_pivot lt a first last 21 (Nat.succ_pos 20)).2
      hsel.2.1 hsel.2.2 (by omega)
    obtain ⟨hpRO, hpp1, hpp2, hpmid, hpleft, hpright⟩ := hpart
    set SP := rs3_5_2_select_pivot lt a first last 21 (Nat.succ_pos 20) with hSP
    set PR := partition lt SP.1 first last SP.2 with hPR
    have hlen2 : PR.1.length = a.length := by
      rw [hPR]
      rw [hpRO.length, hlen1]
    by_cases hbr : last - PR.2 < PR.2 - first
    · rw [if_pos hbr]
      have hq1 := @quicksort_spec lt hswo PR.1 (PR.2 + 1)
        last (by omega) (by omega)
      have hlen3 : (quicksort lt PR.1 (PR.2 + 1) last).length = a.length := by
        rw [hq1.1.length, hlen2]
      have hq2 := @quicksort_spec lt hswo (quicksort lt PR.1 (PR.2 + 1) last)
        first PR.2 (by omega) (by omega)
      have hmid2 : aget (quicksort lt (quicksort lt PR.1 (PR.2 + 1) last)
          first PR.2) PR.2 = aget SP.1 SP.2 := by
        rw [hq2.1.frame PR.2 (Or.inr (Nat.le_refl PR.2)),
          hq1.1.frame PR.2 (Or.inl (by omega))]
        exact hpmid
      have hC1r : ∀ i, PR.2 + 1 ≤ i → i < last →
          lt (aget (quicksort lt PR.1 (PR.2 + 1) last) i) (aget SP.1 SP.2)
            = false := by
        refine RangeOp.forall_window hq1.1 (by omega) (by omega)
          (fun v => lt v (aget SP.1 SP.2) = false) ?_
        intro i h1 h2
        exact hpright i (by omega) h2
      have hL : ∀ i, first ≤ i → i < PR.2 →
          lt (aget SP.1 SP.2) (aget (quicksort lt
            (quicksort lt PR.1 (PR.2 + 1) last) first PR.2) i) = false := by
        refine RangeOp.forall_window hq2.1 (by omega) (by omega)
          (fun v => lt (aget SP.1 SP.2) v = false) ?_
        intro i h1 h2
        rw [hq1.1.frame i (Or.inl (by omega))]
        exact hpleft i h1 h2
      have hR : ∀ i, PR.2 < i → i < last →
          lt (aget (quicksort lt (quicksort lt PR.1 (PR.2 + 1) last) first
            PR.2) i) (aget SP.1 SP.2) = false := by
        intro i h1 h2
        rw [hq2.1.frame i (Or.inr (by omega))]
        exact hC1r i (by omega) h2
      have hsr : PairwiseLE lt (quicksort lt (quicksort lt PR.1 (PR.2 + 1)
          last) first PR.2) (PR.2 + 1) last := by
        intro i j hi hij hj
        rw [hq2.1.frame i (Or.inr (by omega)), hq2.1.frame j (Or.inr (by omega))]
        exact hq1.2 i j hi hij hj
      refine ⟨((hsel.1.trans hpRO).trans (hq1.1.mono (by omega)
        (Nat.le_refl last))).trans (hq2.1.mono (Nat.le_refl first) (by omega)),
        ?_⟩
      exact combine_sorted hswo (by omega) (by omega) hmid2 hL hR hq2.2 hsr
    · rw [if_neg hbr]
      have hq1 := @quicksort_spec lt hswo PR.1 first
        PR.2 (by omega) (by omega)
      have hlen3 : (quicksort lt PR.1 first PR.2).length = a.length := by
        rw [hq1.1.length, hlen2]
      have hq2 := @quicksort_spec lt hswo (quicksort lt PR.1 first PR.2)
        (PR.2 + 1) last (by omega) (by omega)
      have hmid2 : aget (quicksort lt (quicksort lt PR.1 first PR.2)
          (PR.2 + 1) last) PR.2 = aget SP.1 SP.2 := by
        rw [hq2.1.frame PR.2 (Or.inl (by omega)),
          hq1.1.frame PR.2 (Or.inr (Nat.le_refl PR.2))]
        exact hpmid
      have hC1l : ∀ i, first ≤ i → i < PR.2 →
          lt (aget SP.1 SP.2) (aget (quicksort lt PR.1 first PR.2) i)
            = false := by
        refine RangeOp.forall_window hq1.1 (by omega) (by omega)
          (fun v => lt (aget SP.1 SP.2) v = false) ?_
        intro i h1 h2
        exact hpleft i h1 h2
      have hL : ∀ i, first ≤ i → i < PR.2 →
          lt (aget SP.1 SP.2) (aget (quicksort lt (quicksort lt PR.1 first
            PR.2) (PR.2 + 1) last) i) = false := by
        intro i h1 h2
        rw [hq2.1.frame i (Or.inl (by omega))]
        exact hC1l i h1 h2
      have hR : ∀ i, PR.2 < i → i < last →
          lt (aget (quicksort lt (quicksort lt PR.1 first PR.2) (PR.2 + 1)
            last) i) (aget SP.1 SP.2) = false := by
        refine RangeOp.forall_window hq2.1 (by omega) (by omega)
          (fun v => lt v (aget SP.1 SP.2) = false) ?_
        intro i h1 h2
        rw [hq1.1.frame i (Or.inr (by omega))]
        exact hpright i (by omega) h2
      have hsl : PairwiseLE lt (quicksort lt (quicksort lt PR.1 first PR.2)
          (PR.2 + 1) last) first PR.2 := by
        intro i j hi hij hj
        rw [hq2.1.frame i (Or.inl (by omega)), hq2.1.frame j (Or.inl (by omega))]
        exact hq1.2 i j hi hij hj
      refine ⟨((hsel.1.trans hpRO).trans (hq1.1.mono (Nat.le_refl first)
        (by omega))).trans (hq2.1.mono (by omega) (Nat.le_refl last)), ?_⟩
      exact combine_sorted hswo (by omega) (by omega) hmid2 hL hR hsl hq2.2
termination_by last - first
decreasing_by
  all_goals
    first
      | exact partition_sub_lt_right (by omega)
      | exact partition_sub_lt_left (by omega)

set_option maxHeartbeats 4000000 in
theorem rs3_5_2_select_kth_post {lt : α → α → Bool} (hswo : IsSWO lt)
    {a : List α} {first last k s : Nat} {hs : 0 < s} {hk : k < last - first}
    (hlast : last ≤ a.length) :
    (∀ i, first ≤ i → i < first + k →
      lt (aget (rs3_5_2_select_kth lt a first last k s hs hk).1 (first + k))
        (aget (rs3_5_2_select_kth lt a first last k s hs hk).1 i) = false) ∧
    (∀ i, first + k ≤ i → i < last →
      lt (aget (rs3_5_2_select_kth lt a first last k s hs hk).1 i)
        (aget (rs3_5_2_select_kth lt a first last k s hs hk).1 (first + k))
          = false) := by
  unfold rs3_5_2_select_kth
  by_cases h1 : last - first = 1
  · rw [if_pos h1]
    constructor
    · intro i hi1 hi2
      omega
    · intro i hi1 hi2
      have he : i = first + k := by omega
      rw [he]
      exact hswo.irrefl _
  · rw [if_neg h1]
    by_cases h2 : last - first = 2
    · rw [if_pos h2]
      dsimp only
      have hf1 : first + 1 < a.length := by omega
      have hf0 : first < a.length := by omega
      have hkey : lt
          (aget (if lt (aget a (first + 1)) (aget a first) = true
            then swapA a first (first + 1) else a) (first + 1))
          (aget (if lt (aget a (first + 1)) (aget a first) = true
            then swapA a first (first + 1) else a) first) = false := by
        by_cases hc : lt (aget a (first + 1)) (aget a first) = true
        · rw [if_pos hc, aget_swapA_right a first (first + 1) hf1,
            aget_swapA_left a first (first + 1) hf0]
          exact hswo.asymm _ _ hc
        · rw [if_neg hc]
          exact Bool.not_eq_true _ ▸ hc
      constructor
      · intro i hi1 hi2
        have hi : i = first ∧ k = 1 := by omega
        rw [hi.1, hi.2]
        exact hkey
      · intro i hi1 hi2
        rcases Nat.lt_or_ge i (first + 1) with hc | hc
        · have he : i = first ∧ k = 0 := by omega
          rw [he.1, he.2]
          simpa using hswo.irrefl
            (aget (if lt (aget a (first + 1)) (aget a first) = true
              then swapA a first (first + 1) else a) first)
        · have he : i = first + 1 := by omega
          rw [he]
          rcases Nat.eq_zero_or_pos k with hk0 | hk1
          · rw [hk0]
            simpa using hkey
          · have he2 : k = 1 := by omega
            rw [he2]
            exact hswo.irrefl _
    · rw [if_neg h2]
      dsimp only
      have hfl : first < last := by omega
      have hsel := @rs3_5_2_select_pivot_spec α _ lt a first last s hs hfl hlast
      have hlen1 : (rs3_5_2_select_pivot lt a first last s hs).1.length
          = a.length := hsel.1.length
      have hpart := @partition_spec α _ lt hswo
        (rs3_5_2_select_pivot lt a first last s hs).1
        first last
        (rs3_5_2_select_pivot lt a first last s hs).2
        hsel.2.1 hsel.2.2 (by omega)
      obtain ⟨hpRO, hpp1, hpp2, hpmid, hpleft, hpright⟩ := hpart
      set SP := rs3_5_2_select_pivot lt a first last s hs with hSP
      set PR := partition lt SP.1 first last SP.2 with hPR
      have hlen2 : PR.1.length = a.length := by
        rw [hPR, hpRO.length, hlen1]
      by_cases hb1 : PR.2 - first < k
      · rw [dif_pos hb1]
        have hrs := @rs3_5_2_select_kth_spec α _ lt PR.1
          (PR.2 + 1) last (k - (PR.2 - first) - 1)
          2 (Nat.succ_pos 1)
          (rank_right_lt hpp1 hpp2 hb1 hk) (by omega)
        have hih := @rs3_5_2_select_kth_post lt hswo PR.1
          (PR.2 + 1) last (k - (PR.2 - first) - 1)
          2 (Nat.succ_pos 1)
          (rank_right_lt hpp1 hpp2 hb1 hk) (by omega)
        have heq : PR.2 + 1 + (k - (PR.2 - first) - 1) = first + k := by omega
        rw [heq] at hih
        obtain ⟨ihl, ihr⟩ := hih
        have hger : ∀ i, PR.2 + 1 ≤ i → i < last →
            lt (aget (rs3_5_2_select_kth lt PR.1 (PR.2 + 1) last
              (k - (PR.2 - first) - 1) 2 (Nat.succ_pos 1)
              (rank_right_lt hpp1 hpp2 hb1 hk)).1 i)
              (aget SP.1 SP.2) = false := by
          refine RangeOp.forall_window hrs.1 (by omega) (by omega)
            (fun v => lt v (aget SP.1 SP.2) = false) ?_
          intro i hi1 hi2
          exact hpright i (by omega) hi2
        have hvge : lt (aget (rs3_5_2_select_kth lt PR.1 (PR.2 + 1) last
            (k - (PR.2 - first) - 1) 2 (Nat.succ_pos 1)
            (rank_right_lt hpp1 hpp2 hb1 hk)).1 (first + k))
            (aget SP.1 SP.2) = false :=
          hger (first + k) (by omega) (by omega)
        constructor
        · intro i hi1 hi2
          rcases Nat.lt_or_ge PR.2 i with hc | hc
          · exact ihl i (by omega) hi2
          · have hfi : aget (rs3_5_2_select_kth lt PR.1 (PR.2 + 1) last
                (k - (PR.2 - first) - 1) 2 (Nat.succ_pos 1)
                (rank_right_lt hpp1 hpp2 hb1 hk)).1 i
                = aget PR.1 i :=
              hrs.1.frame i (Or.inl (by omega))
            rw [hfi]
            rcases Nat.lt_or_ge i PR.2 with hc2 | hc2
            · exact hswo.negtrans _ _ _ hvge (hpleft i hi1 hc2)
            · have he : i = PR.2 := by omega
              rw [he, hpmid]
              exact hvge
        · intro i hi1 hi2
          exact ihr i (by omega) hi2
      · rw [dif_neg hb1]
        by_cases hb2 : k < PR.2 - first
        · rw [dif_pos hb2]
          have hrs := @rs3_5_2_select_kth_spec α _ lt PR.1
            first (first + (PR.2 - first)) k
            2 (Nat.succ_pos 1) (rank_left_lt hb2) (by omega)
          have hih := @rs3_5_2_select_kth_post lt hswo PR.1
            first (first + (PR.2 - first)) k
            2 (Nat.succ_pos 1) (rank_left_lt hb2) (by omega)
          obtain ⟨ihl, ihr⟩ := hih
          have hlel : ∀ i, first ≤ i → i < first + (PR.2 - first) →
              lt (aget SP.1 SP.2)
                (aget (rs3_5_2_select_kth lt PR.1 first
                  (first + (PR.2 - first)) k 2 (Nat.succ_pos 1)
                  (rank_left_lt hb2)).1 i)
                = false := by
            refine RangeOp.forall_window hrs.1 (by omega) (by omega)
              (fun v => lt (aget SP.1 SP.2) v = false) ?_
            intro i hi1 hi2
            exact hpleft i hi1 (by omega)
          have hvle : lt (aget SP.1 SP.2)
              (aget (rs3_5_2_select_kth lt PR.1 first
                (first + (PR.2 - first)) k 2 (Nat.succ_pos 1)
                (rank_left_lt hb2)).1
                (first + k)) = false :=
            hlel (first + k) (by omega) (by omega)
          constructor
          · intro i hi1 hi2
            exact ihl i hi1 hi2
          · intro i hi1 hi2
            rcases Nat.lt_or_ge i (first + (PR.2 - first)) with hc | hc
            · exact ihr i hi1 hc
            · have hfi : aget (rs3_5_2_select_kth lt PR.1 first
                  (first + (PR.2 - first)) k 2 (Nat.succ_pos 1)
                  (rank_left_lt hb2)).1 i
                  = aget PR.1 i :=
                hrs.1.frame i (Or.inr hc)
              rw [hfi]
              exact hswo.negtrans _ _ _ (hpright i (by omega) hi2) hvle
        · rw [dif_neg hb2]
          dsimp only
          have he : PR.2 = first + k := by omega
          constructor
          · intro i hi1 hi2
            rw [← he, hpmid]
            exact hpleft i hi1 (by omega)
          · intro i hi1 hi2
            rw [← he, hpmid]
            exact hpright i (by omega) hi2
termination_by last - first
decreasing_by
  all_goals
    first
      | exact partition_sub_lt_right (by omega)
      | exact partition_sub_lt_left2 (by omega)

/-- Comparator used by the concrete witnesses: boolean less-than on Nat. -/
def natLt (x y : Nat) : Bool := decide (x < y)

theorem natLt_swo : IsSWO natLt := by
  constructor
  · intro x
    simp [natLt]
  · intro x y h
    simp only [natLt, decide_eq_true_eq] at h
    simp only [natLt, decide_eq_false_iff_not]
    omega
  · intro x y z h1 h2
    simp only [natLt, decide_eq_true_eq] at h1 h2 ⊢
    omega
  · intro x y z h1 h2
    simp only [natLt, decide_eq_false_iff_not] at h1 h2 ⊢
    omega

/-- C1: for every sequence and every comparator forming a strict weak order,
the quicksort entry point applied to the whole sequence yields a permutation
of the original sequence that is fully non-decreasing under the comparator:
the element at position i + 1 is never less than the element at position i. -/
theorem claim_C1 {lt : α → α → Bool} (hswo : IsSWO lt) (a : List α) :
    (quicksort lt a 0 a.length).Perm a ∧
    (∀ i, i + 1 < a.length →
      lt (aget (quicksort lt a 0 a.length) (i + 1))
        (aget (quicksort lt a 0 a.length) i) = false) := by
  have h := @quicksort_spec α _ lt hswo a 0 a.length
    (Nat.zero_le _) (Nat.le_refl _)
  exact ⟨h.1.perm, fun i hi => h.2 i (i + 1) (Nat.zero_le i) (Nat.lt_succ_self i) hi⟩

theorem claim_C1_witness :
    IsSWO natLt ∧
    ((quicksort natLt [5, 3, 8, 1, 9, 2, 7] 0 [5, 3, 8, 1, 9, 2, 7].length).Perm
        [5, 3, 8, 1, 9, 2, 7] ∧
      (∀ i, i + 1 < [5, 3, 8, 1, 9, 2, 7].length →
        natLt (aget (quicksort natLt [5, 3, 8, 1, 9, 2, 7] 0
            [5, 3, 8, 1, 9, 2, 7].length) (i + 1))
          (aget (quicksort natLt [5, 3, 8, 1, 9, 2, 7] 0
            [5, 3, 8, 1, 9, 2, 7].length) i) = false)) :=
  ⟨natLt_swo, claim_C1 natLt_swo [5, 3, 8, 1, 9, 2, 7]⟩

/-- C2: for every sequence of n elements, every rank k below n, and every
strict-weak-order comparator, after the quickselect entry point the element
at position k is not less than any element before position k and not greater
than any element from position k on. -/
theorem claim_C2 {lt : α → α → Bool} (hswo : IsSWO lt) (a : List α) (k : Nat)
    (hk : k < a.length) :
    (∀ i, i < k →
      lt (aget (quickselect lt a 0 k a.length) k)
        (aget (quickselect lt a 0 k a.length) i) = false) ∧
    (∀ i, k ≤ i → i < a.length →
      lt (aget (quickselect lt a 0 k a.length) i)
        (aget (quickselect lt a 0 k a.length) k) = false) := by
  unfold quickselect
  rw [dif_neg (by omega : ¬ (a.length - 0 ≤ k - 0))]
  have hpost := @rs3_5_2_select_kth_post α _ lt hswo a 0
    a.length (k - 0) 21 (Nat.succ_pos 20)
    (Nat.lt_of_not_le (by omega)) (Nat.le_refl _)
  have he : 0 + (k - 0) = k := by omega
  rw [he] at hpost
  exact ⟨fun i hi => hpost.1 i (Nat.zero_le i) (by omega),
    fun i h1 h2 => hpost.2 i h1 h2⟩

theorem claim_C2_witness :
    IsSWO natLt ∧ 3 < [5, 3, 8, 1, 9, 2, 7].length ∧
    ((∀ i, i < 3 →
      natLt (aget (quickselect natLt [5, 3, 8, 1, 9, 2, 7] 0 3
          [5, 3, 8, 1, 9, 2, 7].length) 3)
        (aget (quickselect natLt [5, 3, 8, 1, 9, 2, 7] 0 3
          [5, 3, 8, 1, 9, 2, 7].length) i) = false) ∧
    (∀ i, 3 ≤ i → i < [5, 3, 8, 1, 9, 2, 7].length →
      natLt (aget (quickselect natLt [5, 3, 8, 1, 9, 2, 7] 0 3
          [5, 3, 8, 1, 9, 2, 7].length) i)
        (aget (quickselect natLt [5, 3, 8, 1, 9, 2, 7] 0 3
          [5, 3, 8, 1, 9, 2, 7].length) 3) = false)) :=
  ⟨natLt_swo, by decide,
    claim_C2 natLt_swo [5, 3, 8, 1, 9, 2, 7] 3 (by decide)⟩

/-- C3: for every window, every designated pivot position inside it, and
every strict-weak-order comparator, partition returns a position p inside
the window, the pivot value rests at p, no element before p compares
greater than the pivot value, and no element from p on compares less than
the pivot value. -/
theorem claim_C3 {lt : α → α → Bool} (hswo : IsSWO lt) (a : List α)
    (first last pivot : Nat)
    (h1 : first ≤ pivot) (h2 : pivot < last) (hlast : last ≤ a.length) :
    first ≤ (partition lt a first last pivot).2 ∧
    (partition lt a first last pivot).2 < last ∧
    aget (partition lt a first last pivot).1 (partition lt a first last pivot).2
      = aget a pivot ∧
    (∀ i, first ≤ i → i < (partition lt a first last pivot).2 →
      lt (aget a pivot) (aget (partition lt a first last pivot).1 i) = false) ∧
    (∀ i, (partition lt a first last pivot).2 ≤ i → i < last →
      lt (aget (partition lt a first last pivot).1 i) (aget a pivot) = false) := by
  have h := partition_spec hswo h1 h2 hlast
  exact ⟨h.2.1, h.2.2.1, h.2.2.2.1, h.2.2.2.2.1, h.2.2.2.2.2⟩

theorem claim_C3_witness :
    IsSWO natLt ∧
    (0 ≤ (partition natLt [3, 1, 2] 0 3 1).2 ∧
      (partition natLt [3, 1, 2] 0 3 1).2 < 3 ∧
      aget (partition natLt [3, 1, 2] 0 3 1).1 (partition natLt [3, 1, 2] 0 3 1).2
        = aget [3, 1, 2] 1 ∧
      (∀ i, 0 ≤ i → i < (partition natLt [3, 1, 2] 0 3 1).2 →
        natLt (aget [3, 1, 2] 1) (aget (partition natLt [3, 1, 2] 0 3 1).1 i)
          = false) ∧
      (∀ i, (partition natLt [3, 1, 2] 0 3 1).2 ≤ i → i < 3 →
        natLt (aget (partition natLt [3, 1, 2] 0 3 1).1 i) (aget [3, 1, 2] 1)
          = false)) :=
  ⟨natLt_swo, claim_C3 natLt_swo [3, 1, 2] 0 3 1 (by decide) (by decide)
    (by decide)⟩

/-- C7: the repeated-step pivot selector follows the size-tiered policy of
the source: below 15 elements it returns the middle position without
comparisons; from 15 up to 79 elements the median of three of the front,
middle, and back positions; from 80 up to max(30 s, 200) - 1 elements the
median of five evenly spaced positions; otherwise it deposits
nnext = n / (15 s) pseudo-medians into the staging band and returns the
quickselect of rank nnext / 2 on that band with thinning 2. -/
theorem claim_C7 {lt : α → α → Bool} (a : List α) (first last s : Nat)
    (hs : 0 < s) :
    (last - first < 15 →
      rs3_5_2_select_pivot lt a first last s hs
        = (a, first + (last - first) / 2)) ∧
    (15 ≤ last - first → last - first < 80 →
      rs3_5_2_select_pivot lt a first last s hs
        = (a, median3 lt a first (first + (last - first) / 2) (last - 1))) ∧
    (80 ≤ last - first → last - first < Nat.max (30 * s) 200 →
      rs3_5_2_select_pivot lt a first last s hs
        = (a, median5 lt a first (first + (last - first) / 4)
            (first + (last - first) / 2) (first + 3 * (last - first) / 4)
            (last - 1))) ∧
    (∀ h3 : ¬ (last - first < Nat.max (30 * s) 200),
      rs3_5_2_select_pivot lt a first last s hs
        = rs3_5_2_select_kth lt
            (depositLoop lt a (first + 0 * ((last - first) / 15))
              (first + 7 * ((last - first) / 15))
              (last - 7 * ((last - first) / (15 * s)))
              ((last - first) / (15 * s)) 0)
            (first + 7 * ((last - first) / 15))
            (first + 7 * ((last - first) / 15) + (last - first) / (15 * s))
            ((last - first) / (15 * s) / 2) 2 (Nat.succ_pos 1)
            (band_rank_lt hs h3)) := by
  refine ⟨?_, ?_, ?_, ?_⟩
  · intro h1
    unfold rs3_5_2_select_pivot
    rw [if_pos h1]
  · intro h1 h2
    unfold rs3_5_2_select_pivot
    rw [if_neg (by omega), if_pos h2]
  · intro h1 h3
    unfold rs3_5_2_select_pivot
    have h200 : ¬ (last - first < 80) := by omega
    rw [if_neg (by omega), if_neg h200, dif_pos h3]
  · intro h3
    unfold rs3_5_2_select_pivot
    have hge : 200 ≤ last - first :=
      le_trans (Nat.le_max_right (30 * s) 200) (Nat.le_of_not_lt h3)
    rw [if_neg (by omega), if_neg (by omega), dif_neg h3]

theorem claim_C7_witness :
    0 < 1 ∧
    ((10 - 0 < 15 →
      rs3_5_2_select_pivot natLt [0, 1, 2, 3, 4, 5, 6, 7, 8, 9] 0 10 1
          (Nat.succ_pos 0)
        = ([0, 1, 2, 3, 4, 5, 6, 7, 8, 9], 0 + (10 - 0) / 2)) ∧
    (15 ≤ 10 - 0 → 10 - 0 < 80 →
      rs3_5_2_select_pivot natLt [0, 1, 2, 3, 4, 5, 6, 7, 8, 9] 0 10 1
          (Nat.succ_pos 0)
        = ([0, 1, 2, 3, 4, 5, 6, 7, 8, 9],
            median3 natLt [0, 1, 2, 3, 4, 5, 6, 7, 8, 9] 0 (0 + (10 - 0) / 2)
              (10 - 1))) ∧
    (80 ≤ 10 - 0 → 10 - 0 < Nat.max (30 * 1) 200 →
      rs3_5_2_select_pivot natLt [0, 1, 2, 3, 4, 5, 6, 7, 8, 9] 0 10 1
          (Nat.succ_pos 0)
        = ([0, 1, 2, 3, 4, 5, 6, 7, 8, 9],
            median5 natLt [0, 1, 2, 3, 4, 5, 6, 7, 8, 9] 0 (0 + (10 - 0) / 4)
              (0 + (10 - 0) / 2) (0 + 3 * (10 - 0) / 4) (10 - 1))) ∧
    (∀ h3 : ¬ (10 - 0 < Nat.max (30 * 1) 200),
      rs3_5_2_select_pivot natLt [0, 1, 2, 3, 4, 5, 6, 7, 8, 9] 0 10 1
          (Nat.succ_pos 0)
        = rs3_5_2_select_kth natLt
            (depositLoop natLt [0, 1, 2, 3, 4, 5, 6, 7, 8, 9]
              (0 + 0 * ((10 - 0) / 15)) (0 + 7 * ((10 - 0) / 15))
              (10 - 7 * ((10 - 0) / (15 * 1))) ((10 - 0) / (15 * 1)) 0)
            (0 + 7 * ((10 - 0) / 15))
            (0 + 7 * ((10 - 0) / 15) + (10 - 0) / (15 * 1))
            ((10 - 0) / (15 * 1) / 2) 2 (Nat.succ_pos 1)
            (band_rank_lt (Nat.succ_pos 0) h3))) :=
  ⟨Nat.succ_pos 0,
    @claim_C7 Nat _ natLt [0, 1, 2, 3, 4, 5, 6, 7, 8, 9] 0 10 1
      (Nat.succ_pos 0)⟩

/-- C8: for every window whose element count lies below the insertion-sort
threshold of this variant, 24 elements, quicksort performs exactly an
insertion sort of that window: its result equals the insertion sort
embedding applied to the window, and neither pivot selection nor
partitioning is entered. -/
theorem claim_C8 {lt : α → α → Bool} (a : List α) (first last : Nat)
    (h : last - first < 24) :
    quicksort lt a first last = insertion_sort lt a first last := by
  unfold quicksort
  rw [dif_pos h]

theorem claim_C8_witness :
    2 - 0 < 24 ∧
    quicksort natLt [2, 1] 0 2 = insertion_sort natLt [2, 1] 0 2 :=
  ⟨by decide, claim_C8 [2, 1] 0 2 (by decide)⟩

/-- C9: quicksort and quickselect terminate on every finite input: the
partition always returns a position inside the half-open window, so each
recursive window is strictly shorter, and the staging band of the pivot
selector holds n / (15 s) < n elements; all the recursive definitions of
this development are accepted by well-founded recursion on these measures. -/
theorem claim_C9 :
    (∀ (lt : α → α → Bool) (a : List α) (first last pivot : Nat),
      first < last →
      first ≤ (partition lt a first last pivot).2 ∧
      (partition lt a first last pivot).2 < last) ∧
    (∀ n s : Nat, 1 ≤ s → 200 ≤ n → n / (15 * s) < n) := by
  constructor
  · intro lt a first last pivot h
    exact partition_pos h
  · intro n s h1 h2
    exact Nat.div_lt_self (by omega) (by omega)

theorem claim_C9_witness :
    (0 < 2 ∧
      (0 ≤ (partition natLt [1, 0] 0 2 0).2 ∧
        (partition natLt [1, 0] 0 2 0).2 < 2)) ∧
    (1 ≤ 1 ∧ 200 ≤ 200 ∧ 200 / (15 * 1) < 200) :=
  ⟨⟨by decide, (claim_C9 (α := Nat)).1 natLt [1, 0] 0 2 0 (by decide)⟩,
    ⟨by decide, by decide, (claim_C9 (α := Nat)).2 200 1 (by decide) (by decide)⟩⟩

/-- C10: partition, the pivot selector, the quickselect core, and the
quickselect entry point each leave the multiset of elements of the sequence
unchanged: every call realizes a permutation of the sequence. -/
theorem claim_C10 {lt : α → α → Bool} (a : List α) :
    (∀ first last pivot : Nat, first ≤ pivot → pivot < last →
      last ≤ a.length → (partition lt a first last pivot).1.Perm a) ∧
    (∀ (first last s : Nat) (hs : 0 < s), first < last → last ≤ a.length →
      (rs3_5_2_select_pivot lt a first last s hs).1.Perm a) ∧
    (∀ (first last k s : Nat) (hs : 0 < s) (hk : k < last - first),
      last ≤ a.length →
      (rs3_5_2_select_kth lt a first last k s hs hk).1.Perm a) ∧
    (∀ first kth last : Nat, last ≤ a.length →
      (quickselect lt a first kth last).Perm a) := by
  refine ⟨?_, ?_, ?_, ?_⟩
  · intro first last pivot h1 h2 hlast
    exact (partition_rangeOp h1 h2 hlast).perm
  · intro first last s hs hfl hlast
    exact (@rs3_5_2_select_pivot_spec α _ lt a first last s hs hfl hlast).1.perm
  · intro first last k s hs hk hlast
    exact (@rs3_5_2_select_kth_spec α _ lt a first last k s hs hk hlast).1.perm
  · intro first kth last hlast
    unfold quickselect
    by_cases h : last - first ≤ kth - first
    · rw [dif_pos h]
    · rw [dif_neg h]
      exact (@rs3_5_2_select_kth_spec α _ lt a first last (kth - first) 21
        (Nat.succ_pos 20) (Nat.lt_of_not_le h) hlast).1.perm

theorem claim_C10_witness :
    (0 ≤ 1 ∧ 1 < 3 ∧ 3 ≤ [3, 1, 2].length ∧
      (partition natLt [3, 1, 2] 0 3 1).1.Perm [3, 1, 2]) ∧
    (quickselect natLt [3, 1, 2] 0 1 3).Perm [3, 1, 2] :=
  ⟨⟨by decide, by decide, by decide,
    (@claim_C10 Nat _ natLt [3, 1, 2]).1 0 3 1 (by decide) (by decide)
      (by decide)⟩,
    (@claim_C10 Nat _ natLt [3, 1, 2]).2.2.2 0 1 3 (by decide)⟩

/-!
Embedding of src/c/quicksort_mm.c, the C variant.  The byte-addressed
memory of the C code is modelled at element granularity: one position per
element; the opaque element size sz plays no role beyond the entry guards,
and the byte-wise swap becomes the element exchange.  The three-way
comparator returns an integer sign.  A null base pointer is modelled by a
boolean flag.  The pointer-overflow guard (end < begin) of the source is
vacuous in the index model and has no branch to take.
-/

/-- Median of three with the three-way comparator, as in the C source. -/
def median3_c (cmp : α → α → Int) (a : List α) (i j k : Nat) : Nat :=
  if cmp (aget a i) (aget a j) < 0 then
    (if cmp (aget a j) (aget a k) < 0 then j
     else if cmp (aget a i) (aget a k) < 0 then k else i)
  else
    (if cmp (aget a i) (aget a k) < 0 then i
     else if cmp (aget a j) (aget a k) < 0 then k else j)

/-- Median of five with the three-way comparator: the pointer shuffles of
the C source become pure shuffles of positions. -/
def median5_c (cmp : α → α → Int) (a : List α) (p1 p2 p3 p4 p5 : Nat) : Nat :=
  let s1 := if 0 < cmp (aget a p1) (aget a p2) then (p2, p1) else (p1, p2)
  let s2 := if 0 < cmp (aget a p3) (aget a p4) then (p4, p3) else (p3, p4)
  let s3 := if 0 < cmp (aget a s1.1) (aget a s2.1) then
      (s2.1, s2.2, s1.1, s1.2)
    else (s1.1, s1.2, s2.1, s2.2)
  let b := s3.2.1
  let c := s3.2.2.1
  let d := s3.2.2.2
  let s4 := if 0 < cmp (aget a b) (aget a p5) then (p5, b) else (b, p5)
  let b2 := s4.1
  let e2 := s4.2
  if 0 < cmp (aget a b2) (aget a c) then
    (if 0 < cmp (aget a b2) (aget a d) then d else b2)
  else
    (if 0 < cmp (aget a c) (aget a e2) then e2 else c)

/-- Loop counter of the approximate square root of the C source: the
number of times n can be divided by 4 before reaching zero. -/
def sqrtSteps (n : Nat) : Nat :=
  if n = 0 then 0 else sqrtSteps (n / 4) + 1
termination_by n
decreasing_by exact Nat.div_lt_self (by omega) (by omega)

/-- Approximate square root of the C source: one is shifted left by the
final loop counter.  The entry guards keep n positive, so the counter is
at least one and the shift amount is the counter minus one. -/
def approx_sqrt (n : Nat) : Nat := 2 ^ (sqrtSteps n - 1)

/-- Downward scan of the C partition: decrement hi, stop when the cursors
meet or cross or the scanned element compares at most equal to the pivot
value.  The meeting case is recognized by lo being at least the result. -/
def scanHi_c (cmp : α → α → Int) (a : List α) (pv : α) (lo : Nat) :
    Nat → Nat
  | 0 => 0
  | h + 1 =>
    if lo ≥ h then h
    else if cmp (aget a h) pv ≤ 0 then h
    else scanHi_c cmp a pv lo h

/-- Upward scan of the C partition: increment lo, stop when the cursors
meet or cross or the scanned element compares at least equal to the pivot
value. -/
def scanLo_c (cmp : α → α → Int) (a : List α) (pv : α) (hi lo : Nat) : Nat :=
  if lo + 1 < hi then
    (if 0 ≤ cmp (aget a (lo + 1)) pv then lo + 1
     else scanLo_c cmp a pv hi (lo + 1))
  else lo + 1
termination_by hi - lo

theorem scanHi_c_lt {cmp : α → α → Int} {a : List α} {pv : α} {lo : Nat} :
    ∀ {hi : Nat}, lo < scanHi_c cmp a pv lo hi → scanHi_c cmp a pv lo hi < hi
  | 0, h => by simp [scanHi_c] at h
  | h + 1, hgt => by
      unfold scanHi_c at hgt ⊢
      by_cases h1 : lo ≥ h
      · rw [if_pos h1] at hgt ⊢
        omega
      · rw [if_neg h1] at hgt ⊢
        by_cases h2 : cmp (aget a h) pv ≤ 0
        · rw [if_pos h2] at hgt ⊢
          omega
        · rw [if_neg h2] at hgt ⊢
          exact Nat.lt_succ_of_lt (scanHi_c_lt hgt)

theorem scanLo_c_bounds {cmp : α → α → Int} {a : List α} {pv : α}
    {hi lo : Nat} (hlt : lo < hi) :
    lo < scanLo_c cmp a pv hi lo ∧ scanLo_c cmp a pv hi lo ≤ hi := by
  unfold scanLo_c
  by_cases h1 : lo + 1 < hi
  · rw [if_pos h1]
    by_cases h2 : 0 ≤ cmp (aget a (lo + 1)) pv
    · rw [if_pos h2]
      omega
    · rw [if_neg h2]
      have := @scanLo_c_bounds cmp a pv _ _ h1
      omega
  · rw [if_neg h1]
    omega
termination_by hi - lo

/-- Outer loop of the C partition: the swap is skipped when both scanned
elements compare equal to the pivot value, as in the source. -/
def partitionLoop_c (cmp : α → α → Int) (a : List α) (pv : α) (lo hi : Nat) :
    List α × Nat :=
  let h := scanHi_c cmp a pv lo hi
  if h1 : lo ≥ h then (a, lo)
  else
    let l := scanLo_c cmp a pv h lo
    if l ≥ h then (a, l)
    else
      partitionLoop_c cmp
        (if cmp (aget a l) pv ≠ 0 ∨ cmp (aget a h) pv ≠ 0 then swapA a l h
         else a)
        pv l h
termination_by hi
decreasing_by exact scanHi_c_lt (by omega)

/-- Hoare partition of the C variant on the window of n elements starting
at position first, around the designated pivot position. -/
def partition_c (cmp : α → α → Int) (a : List α) (first pivot n : Nat) :
    List α × Nat :=
  let a1 := if pivot ≠ first then swapA a pivot first else a
  let pv := aget a1 first
  let r := partitionLoop_c cmp a1 pv first (first + n)
  (swapA r.1 first r.2, r.2)

theorem partitionLoop_c_eq_meet {cmp : α → α → Int} {a : List α} {pv : α}
    {lo hi : Nat} (h1 : lo ≥ scanHi_c cmp a pv lo hi) :
    partitionLoop_c cmp a pv lo hi = (a, lo) := by
  unfold partitionLoop_c
  simp [h1]

theorem partitionLoop_c_eq_cross {cmp : α → α → Int} {a : List α} {pv : α}
    {lo hi : Nat} (h1 : ¬ lo ≥ scanHi_c cmp a pv lo hi)
    (h2 : scanLo_c cmp a pv (scanHi_c cmp a pv lo hi) lo ≥
      scanHi_c cmp a pv lo hi) :
    partitionLoop_c cmp a pv lo hi =
      (a, scanLo_c cmp a pv (scanHi_c cmp a pv lo hi) lo) := by
  unfold partitionLoop_c
  simp [h1, h2]

theorem partitionLoop_c_eq_swap {cmp : α → α → Int} {a : List α} {pv : α}
    {lo hi : Nat} (h1 : ¬ lo ≥ scanHi_c cmp a pv lo hi)
    (h2 : ¬ scanLo_c cmp a pv (scanHi_c cmp a pv lo hi) lo ≥
      scanHi_c cmp a pv lo hi) :
    partitionLoop_c cmp a pv lo hi =
      partitionLoop_c cmp
        (if cmp (aget a (scanLo_c cmp a pv (scanHi_c cmp a pv lo hi) lo)) pv ≠ 0 ∨
            cmp (aget a (scanHi_c cmp a pv lo hi)) pv ≠ 0 then
          swapA a (scanLo_c cmp a pv (scanHi_c cmp a pv lo hi) lo)
            (scanHi_c cmp a pv lo hi)
         else a)
        pv (scanLo_c cmp a pv (scanHi_c cmp a pv lo hi) lo)
        (scanHi_c cmp a pv lo hi) := by
  conv_lhs => unfold partitionLoop_c
  simp [h1, h2]

theorem partitionLoop_c_pos {cmp : α → α → Int} {a : List α} {pv : α}
    {lo hi : Nat} (hlt : lo < hi) :
    lo ≤ (partitionLoop_c cmp a pv lo hi).2 ∧
      (partitionLoop_c cmp a pv lo hi).2 < hi := by
  by_cases h1 : lo ≥ scanHi_c cmp a pv lo hi
  · rw [partitionLoop_c_eq_meet h1]
    exact ⟨Nat.le_refl lo, hlt⟩
  · have hs := scanHi_c_lt (lt_of_not_ge h1)
    have hlo2 : lo < scanHi_c cmp a pv lo hi := lt_of_not_ge h1
    have hsl := @scanLo_c_bounds α _ cmp a pv _ _ hlo2
    by_cases h2 : scanLo_c cmp a pv (scanHi_c cmp a pv lo hi) lo ≥
        scanHi_c cmp a pv lo hi
    · rw [partitionLoop_c_eq_cross h1 h2]
      exact ⟨by omega, by omega⟩
    · rw [partitionLoop_c_eq_swap h1 h2]
      have hrec := @partitionLoop_c_pos cmp
        (if cmp (aget a (scanLo_c cmp a pv (scanHi_c cmp a pv lo hi) lo))
              pv ≠ 0 ∨ cmp (aget a (scanHi_c cmp a pv lo hi)) pv ≠ 0 then
            swapA a (scanLo_c cmp a pv (scanHi_c cmp a pv lo hi) lo)
              (scanHi_c cmp a pv lo hi)
          else a)
        pv (scanLo_c cmp a pv (scanHi_c cmp a pv lo hi) lo)
        (scanHi_c cmp a pv lo hi) (by omega)
      exact ⟨by omega, by omega⟩
termination_by hi
decreasing_by exact scanHi_c_lt (by omega)

theorem partition_c_pos {cmp : α → α → Int} {a : List α}
    {first pivot n : Nat} (h : 0 < n) :
    first ≤ (partition_c cmp a first pivot n).2 ∧
      (partition_c cmp a first pivot n).2 < first + n := by
  unfold partition_c
  exact partitionLoop_c_pos (by omega)

theorem partition_c_sub {cmp : α → α → Int} {a : List α}
    {first pivot n : Nat} (h : 0 < n) :
    (partition_c cmp a first pivot n).2 - first < n := by
  have := @partition_c_pos α _ cmp a first pivot n h
  omega

theorem clamp2_ge (thin : Nat) : 2 ≤ (if thin < 2 then 2 else thin) := by
  split <;> omega

theorem band_rank_lt_c {n th : Nat} (hth : 2 ≤ th)
    (h3 : ¬ (n < 30 * th ∨ n < 200)) :
    n / (15 * th) / 2 < n / (15 * th) := by
  push_neg at h3
  have h2 : 2 ≤ n / (15 * th) :=
    (Nat.le_div_iff_mul_le (by omega)).mpr (by omega)
  exact Nat.div_lt_self (by omega) (by omega)

theorem rank_right_lt_c {first n kth px : Nat} (hpx1 : first ≤ px)
    (hpx2 : px < first + n) (h1 : px - first < kth) (hk : kth < n) :
    kth - (px - first) - 1 < n - (px - first) - 1 := by omega

/-- Deposit loop of the C pivot selector: combine five medians of three by
a median of five and exchange the pseudo-median into the staging band slot
q + i unless it already sits there. -/
def depositLoop_c (cmp : α → α → Int) (a : List α) (p q r nnext i : Nat) :
    List α :=
  if i < nnext then
    depositLoop_c cmp
      (if q + i ≠ median5_c cmp a
          (median3_c cmp a (p + (i * 7 + 0)) (p + (i * 7 + 1)) (p + (i * 7 + 2)))
          (median3_c cmp a (p + (i * 7 + 3)) (p + (i * 7 + 4)) (p + (i * 7 + 5)))
          (median3_c cmp a (p + (i * 7 + 6)) (q + (i * 1 + 0)) (r + (i * 7 + 0)))
          (median3_c cmp a (r + (i * 7 + 1)) (r + (i * 7 + 2)) (r + (i * 7 + 3)))
          (median3_c cmp a (r + (i * 7 + 4)) (r + (i * 7 + 5)) (r + (i * 7 + 6)))
       then
        swapA a (q + i) (median5_c cmp a
          (median3_c cmp a (p + (i * 7 + 0)) (p + (i * 7 + 1)) (p + (i * 7 + 2)))
          (median3_c cmp a (p + (i * 7 + 3)) (p + (i * 7 + 4)) (p + (i * 7 + 5)))
          (median3_c cmp a (p + (i * 7 + 6)) (q + (i * 1 + 0)) (r + (i * 7 + 0)))
          (median3_c cmp a (r + (i * 7 + 1)) (r + (i * 7 + 2)) (r + (i * 7 + 3)))
          (median3_c cmp a (r + (i * 7 + 4)) (r + (i * 7 + 5)) (r + (i * 7 + 6))))
       else a)
      p q r nnext (i + 1)
  else a
termination_by nnext - i

mutual

/-- Repeated-step pivot selector of the C variant; the thinning parameter
is clamped to at least 2 at entry, as in the source. -/
def rs3_5_2_pick_pivot (cmp : α → α → Int) (a : List α)
    (first n thin : Nat) : List α × Nat :=
  let th := if thin < 2 then 2 else thin
  if n < 15 then (a, first + n / 2)
  else if n < 80 then
    (a, median3_c cmp a first (first + n / 2) (first + (n - 1)))
  else if h3 : n < 30 * th ∨ n < 200 then
    (a, median5_c cmp a first (first + n / 4) (first + n / 2)
      (first + 3 * n / 4) (first + (n - 1)))
  else
    rs3_5_2_find_kth cmp
      (depositLoop_c cmp a first (first + 7 * (n / 15))
        (first + (n - n / (15 * th) * 7)) (n / (15 * th)) 0)
      (first + 7 * (n / 15)) (n / (15 * th)) 2 (n / (15 * th) / 2)
      (band_rank_lt_c (clamp2_ge thin) h3)
  termination_by (n, 0)
  decreasing_by
  · apply Prod.Lex.left
    have hT := clamp2_ge thin
    have hD := Nat.div_lt_self (n := n)
      (k := 15 * (if thin < 2 then 2 else thin)) (by omega) (by omega)
    simp only [dite_eq_ite] at *
    omega

/-- Quickselect core of the C variant; the assertion kth < n of the source
becomes the hypothesis hk, re-established at every internal call. -/
def rs3_5_2_find_kth (cmp : α → α → Int) (a : List α)
    (first n thin kth : Nat) (hk : kth < n) : List α × Nat :=
  if n = 1 then (a, first)
  else if n = 2 then
    (if 0 < cmp (aget a first) (aget a (first + 1)) then
      swapA a first (first + 1)
     else a, first + kth)
  else
    let sel := rs3_5_2_pick_pivot cmp a first n thin
    let pr := partition_c cmp sel.1 first sel.2 n
    if h1 : pr.2 - first < kth then
      rs3_5_2_find_kth cmp pr.1 (pr.2 + 1) (n - (pr.2 - first) - 1) 2
        (kth - (pr.2 - first) - 1)
        (rank_right_lt_c
          (@partition_c_pos α _ cmp sel.1 first sel.2 n
            (Nat.zero_lt_of_lt hk)).1
          (@partition_c_pos α _ cmp sel.1 first sel.2 n
            (Nat.zero_lt_of_lt hk)).2
          h1 hk)
    else if h2 : kth < pr.2 - first then
      rs3_5_2_find_kth cmp pr.1 first (pr.2 - first) 2 kth h2
    else (pr.1, pr.2)
  termination_by (n, 1)
  decreasing_by
  all_goals
    first
      | exact Prod.Lex.right _ (by omega)
      | (apply Prod.Lex.left
         exact partition_c_sub (by omega))
      | (apply Prod.Lex.left
         omega)

end

/-- Main quicksort routine of the C variant: the thinning parameter is
clamped to at least 10 at entry; recursion order is decided by the
pointer-difference comparison of the source, and the thinning parameter
decays by the factor 12 / 17 on each recursive call. -/
def quicksort_body (cmp : α → α → Int) (a : List α)
    (first n thin : Nat) : List α :=
  let th := if thin < 10 then 10 else thin
  if n ≤ 1 then a
  else if n = 2 then
    (if 0 < cmp (aget a first) (aget a (first + 1)) then
      swapA a first (first + 1)
     else a)
  else
    let sel := rs3_5_2_pick_pivot cmp a first n th
    let pr := partition_c cmp sel.1 first sel.2 n
    if (first + n) - pr.2 < pr.2 - first then
      quicksort_body cmp
        (quicksort_body cmp pr.1 (pr.2 + 1) (n - (pr.2 - first) - 1)
          (th * 12 / 17))
        first (pr.2 - first) (th * 12 / 17)
    else
      quicksort_body cmp
        (quicksort_body cmp pr.1 first (pr.2 - first) (th * 12 / 17))
        (pr.2 + 1) (n - (pr.2 - first) - 1) (th * 12 / 17)
termination_by n
decreasing_by
  all_goals
    first
      | exact partition_c_sub (by omega)
      | omega

/-- Quicksort entry point of the C variant, with the defensive guards of
the source: a null base pointer, a zero element count, or a zero element
size each make the call a silent no-op. -/
def quicksort_mm_quicksort (cmp : α → α → Int) (pIsNull : Bool)
    (a : List α) (n sz : Nat) : List α :=
  if pIsNull then a
  else if n = 0 then a
  else if sz = 0 then a
  else quicksort_body cmp a 0 n (approx_sqrt n)

/-- Quickselect entry point of the C variant, with the defensive guards of
the source: a null base pointer, a zero element size, a zero element
count, or an out-of-window rank each make the call a silent no-op. -/
def quicksort_mm_quickselect (cmp : α → α → Int) (pIsNull : Bool)
    (a : List α) (n sz kth : Nat) : List α :=
  if pIsNull then a
  else if sz = 0 then a
  else if n = 0 then a
  else if h : n ≤ kth then a
  else (rs3_5_2_find_kth cmp a 0 n (approx_sqrt n) kth
    (Nat.lt_of_not_le h)).1

/-- The already-sorted sequence of the first 24 naturals, used to exercise
the quicksort driver at its smallest non-insertion-sort size. -/
def sorted24 : List Nat :=
  [0, 1, 2, 3, 4, 5, 6, 7, 8, 9, 10, 11, 12, 13, 14, 15, 16, 17, 18, 19,
   20, 21, 22, 23]

/-- All 120 arrangements of the five distinct values 0..4, listed
explicitly so that membership, distinctness and the median property are
all checked by kernel computation. -/
def perms5 : List (List Nat) :=
  [[0, 1, 2, 3, 4], [0, 1, 2, 4, 3], [0, 1, 3, 2, 4], [0, 1, 3, 4, 2], [0, 1, 4, 2, 3], [0, 1, 4, 3, 2],
   [0, 2, 1, 3, 4], [0, 2, 1, 4, 3], [0, 2, 3, 1, 4], [0, 2, 3, 4, 1], [0, 2, 4, 1, 3], [0, 2, 4, 3, 1],
   [0, 3, 1, 2, 4], [0, 3, 1, 4, 2], [0, 3, 2, 1, 4], [0, 3, 2, 4, 1], [0, 3, 4, 1, 2], [0, 3, 4, 2, 1],
   [0, 4, 1, 2, 3], [0, 4, 1, 3, 2], [0, 4, 2, 1, 3], [0, 4, 2, 3, 1], [0, 4, 3, 1, 2], [0, 4, 3, 2, 1],
   [1, 0, 2, 3, 4], [1, 0, 2, 4, 3], [1, 0, 3, 2, 4], [1, 0, 3, 4, 2], [1, 0, 4, 2, 3], [1, 0, 4, 3, 2],
   [1, 2, 0, 3, 4], [1, 2, 0, 4, 3], [1, 2, 3, 0, 4], [1, 2, 3, 4, 0], [1, 2, 4, 0, 3], [1, 2, 4, 3, 0],
   [1, 3, 0, 2, 4], [1, 3, 0, 4, 2], [1, 3, 2, 0, 4], [1, 3, 2, 4, 0], [1, 3, 4, 0, 2], [1, 3, 4, 2, 0],
   [1, 4, 0, 2, 3], [1, 4, 0, 3, 2], [1, 4, 2, 0, 3], [1, 4, 2, 3, 0], [1, 4, 3, 0, 2], [1, 4, 3, 2, 0],
   [2, 0, 1, 3, 4], [2, 0, 1, 4, 3], [2, 0, 3, 1, 4], [2, 0, 3, 4, 1], [2, 0, 4, 1, 3], [2, 0, 4, 3, 1],
   [2, 1, 0, 3, 4], [2, 1, 0, 4, 3], [2, 1, 3, 0, 4], [2, 1, 3, 4, 0], [2, 1, 4, 0, 3], [2, 1, 4, 3, 0],
   [2, 3, 0, 1, 4], [2, 3, 0, 4, 1], [2, 3, 1, 0, 4], [2, 3, 1, 4, 0], [2, 3, 4, 0, 1], [2, 3, 4, 1, 0],
   [2, 4, 0, 1, 3], [2, 4, 0, 3, 1], [2, 4, 1, 0, 3], [2, 4, 1, 3, 0], [2, 4, 3, 0, 1], [2, 4, 3, 1, 0],
   [3, 0, 1, 2, 4], [3, 0, 1, 4, 2], [3, 0, 2, 1, 4], [3, 0, 2, 4, 1], [3, 0, 4, 1, 2], [3, 0, 4, 2, 1],
   [3, 1, 0, 2, 4], [3, 1, 0, 4, 2], [3, 1, 2, 0, 4], [3, 1, 2, 4, 0], [3, 1, 4, 0, 2], [3, 1, 4, 2, 0],
   [3, 2, 0, 1, 4], [3, 2, 0, 4, 1], [3, 2, 1, 0, 4], [3, 2, 1, 4, 0], [3, 2, 4, 0, 1], [3, 2, 4, 1, 0],
   [3, 4, 0, 1, 2], [3, 4, 0, 2, 1], [3, 4, 1, 0, 2], [3, 4, 1, 2, 0], [3, 4, 2, 0, 1], [3, 4, 2, 1, 0],
   [4, 0, 1, 2, 3], [4, 0, 1, 3, 2], [4, 0, 2, 1, 3], [4, 0, 2, 3, 1], [4, 0, 3, 1, 2], [4, 0, 3, 2, 1],
   [4, 1, 0, 2, 3], [4, 1, 0, 3, 2], [4, 1, 2, 0, 3], [4, 1, 2, 3, 0], [4, 1, 3, 0, 2], [4, 1, 3, 2, 0],
   [4, 2, 0, 1, 3], [4, 2, 0, 3, 1], [4, 2, 1, 0, 3], [4, 2, 1, 3, 0], [4, 2, 3, 0, 1], [4, 2, 3, 1, 0],
   [4, 3, 0, 1, 2], [4, 3, 0, 2, 1], [4, 3, 1, 0, 2], [4, 3, 1, 2, 0], [4, 3, 2, 0, 1], [4, 3, 2, 1, 0]]

/-- All 6 arrangements of the three distinct values 0..2. -/
def perms3 : List (List Nat) :=
  [[0, 1, 2], [0, 2, 1], [1, 0, 2], [1, 2, 0], [2, 0, 1], [2, 1, 0]]

set_option maxRecDepth 40000 in
/-- C6: perms5 holds 120 pairwise-distinct sequences, each an arrangement
of the five distinct values 0..4 (each value occurring exactly once), and
on every one of them median5 (and the C-variant median5_c under a
three-way comparator) returns a position holding the middle-ranked value
2; likewise perms3 holds the 6 arrangements of three distinct values and
median3 and median3_c return a position holding the middle value 1.  The
median functions are embedded as pure position-valued functions because
the source only reads the sequence through them and never writes it. -/
theorem claim_C6 :
    (perms5.length = 120 ∧ perms5.Nodup ∧
      (∀ l ∈ perms5, l.length = 5 ∧ ∀ v ∈ [0, 1, 2, 3, 4], l.count v = 1) ∧
      (∀ l ∈ perms5,
        aget l (median5 natLt l 0 1 2 3 4) = 2 ∧
        aget l (median5_c (fun x y : Nat => (x : Int) - y) l 0 1 2 3 4) = 2)) ∧
    (perms3.length = 6 ∧ perms3.Nodup ∧
      (∀ l ∈ perms3, l.length = 3 ∧ ∀ v ∈ [0, 1, 2], l.count v = 1) ∧
      (∀ l ∈ perms3,
        aget l (median3 natLt l 0 1 2) = 1 ∧
        aget l (median3_c (fun x y : Nat => (x : Int) - y) l 0 1 2) = 1)) := by
  decide

/-- Fuel-indexed form of the upward scan, used to evaluate scanLo on
concrete inputs by kernel computation. -/
def scanLoF (lt : α → α → Bool) (a : List α) (pv : α) (hi : Nat) :
    Nat → Nat → Nat
  | 0, lo => lo + 1
  | f + 1, lo =>
    if lo + 1 < hi then
      (if lt (aget a (lo + 1)) pv then scanLoF lt a pv hi f (lo + 1)
       else lo + 1)
    else lo + 1

theorem scanLo_eq_f {lt : α → α → Bool} {a : List α} {pv : α} {hi : Nat} :
    ∀ (f lo : Nat), hi ≤ lo + f →
      scanLo lt a pv hi lo = scanLoF lt a pv hi f lo
  | 0, lo, hle => by
      unfold scanLo
      simp only [scanLoF]
      rw [if_neg (by omega)]
  | f + 1, lo, hle => by
      unfold scanLo
      simp only [scanLoF]
      by_cases hg : lo + 1 < hi
      · rw [if_pos hg, if_pos hg]
        by_cases hc : lt (aget a (lo + 1)) pv = true
        · rw [if_pos hc, if_pos hc]
          exact scanLo_eq_f f (lo + 1) (by omega)
        · rw [if_neg hc, if_neg hc]
      · rw [if_neg hg, if_neg hg]

/-- C4 (counterexample): on the already-sorted 24-element sequence the
pivot selector (tier 2) returns position 12 and partition returns
p = 12, so the right side [13, 24) holds 11 elements against 12 in the
left side [0, 12); the right side is strictly smaller, yet the branch
condition last - p < p - first of the driver is false (12 < 12), so the
driver takes the else branch and the inner — first performed — recursive
call is the one on the LARGER left side.  This refutes the claim that the
side holding fewer elements is always descended first. -/
theorem claim_C4_counterexample :
    rs3_5_2_select_pivot natLt sorted24 0 24 21 (Nat.succ_pos 20) =
      (sorted24, 12) ∧
    partition natLt sorted24 0 24 12 = (sorted24, 12) ∧
    24 - (12 + 1) < 12 - 0 ∧
    ¬ (24 - 12 < 12 - 0) ∧
    quicksort natLt sorted24 0 24 =
      quicksort natLt (quicksort natLt sorted24 0 12) (12 + 1) 24 := by
  have hA1 : (if (0 : Nat) ≠ 12 then swapA sorted24 0 12 else sorted24) =
      swapA sorted24 0 12 := by decide
  have hsH : scanHi natLt (swapA sorted24 0 12)
      (aget (swapA sorted24 0 12) 0) 0 24 = 12 := by decide
  have hsL : scanLo natLt (swapA sorted24 0 12)
      (aget (swapA sorted24 0 12) 0) 12 0 = 12 := by
    rw [scanLo_eq_f 12 0 (by omega)]
    decide
  have h1 : ¬ scanHi natLt (swapA sorted24 0 12)
      (aget (swapA sorted24 0 12) 0) 0 24 = 0 := by
    rw [hsH]
    decide
  have h2 : scanLo natLt (swapA sorted24 0 12) (aget (swapA sorted24 0 12) 0)
      (scanHi natLt (swapA sorted24 0 12) (aget (swapA sorted24 0 12) 0) 0 24)
      0 =
      scanHi natLt (swapA sorted24 0 12) (aget (swapA sorted24 0 12) 0) 0
        24 := by
    rw [hsH]
    exact hsL
  have hcross := partitionLoop_eq_cross h1 h2
  have hpart : partition natLt sorted24 0 24 12 = (sorted24, 12) := by
    unfold partition
    dsimp only
    rw [hA1, hcross, hsH, hsL]
    decide
  have hsel : rs3_5_2_select_pivot natLt sorted24 0 24 21 (Nat.succ_pos 20) =
      (sorted24, 12) := by
    unfold rs3_5_2_select_pivot
    rw [if_neg (by decide : ¬ (24 - 0 < 15)), if_pos (by decide : 24 - 0 < 80)]
    decide
  refine ⟨hsel, hpart, by decide, by decide, ?_⟩
  conv_lhs => unfold quicksort
  rw [dif_neg (by decide : ¬ (24 - 0 < 24))]
  dsimp only
  rw [hsel]
  dsimp only
  rw [hpart]
  dsimp only
  rw [if_neg (by decide : ¬ (24 - 12 < 12 - 0))]

/-- C4 (amended): after partitioning, the driver descends into the right
side first exactly when last - p < p - first holds for the returned
position p.  When the right side is descended first it is strictly
smaller than the left side; when the left side is descended first, the
left side holds at most one element more than the right side — so the
side descended first can exceed the other side by at most one element,
but it is not always the strictly smaller side. -/
theorem claim_C4 {lt : α → α → Bool} (a : List α) (first last pivot : Nat)
    (hfl : first < last) :
    (last - (partition lt a first last pivot).2 <
        (partition lt a first last pivot).2 - first →
      last - ((partition lt a first last pivot).2 + 1) <
        (partition lt a first last pivot).2 - first) ∧
    (¬ (last - (partition lt a first last pivot).2 <
        (partition lt a first last pivot).2 - first) →
      (partition lt a first last pivot).2 - first ≤
        last - ((partition lt a first last pivot).2 + 1) + 1) := by
  have hp := @partition_pos α _ lt a first last pivot hfl
  omega

theorem claim_C4_witness :
    (0 : Nat) < 3 ∧
    ((3 - (partition natLt [2, 0, 1] 0 3 1).2 <
        (partition natLt [2, 0, 1] 0 3 1).2 - 0 →
      3 - ((partition natLt [2, 0, 1] 0 3 1).2 + 1) <
        (partition natLt [2, 0, 1] 0 3 1).2 - 0) ∧
     (¬ (3 - (partition natLt [2, 0, 1] 0 3 1).2 <
        (partition natLt [2, 0, 1] 0 3 1).2 - 0) →
      (partition natLt [2, 0, 1] 0 3 1).2 - 0 ≤
        3 - ((partition natLt [2, 0, 1] 0 3 1).2 + 1) + 1)) :=
  ⟨by decide, claim_C4 [2, 0, 1] 0 3 1 (by decide)⟩

/-- C5: the entry points of the C variant are silent no-ops on a null
base pointer, a zero element count, or a zero element size, and the
select entry point additionally on an out-of-window rank n ≤ kth; in
every case the sequence is returned completely unchanged.  Internally the
rank argument of rs3_5_2_find_kth carries the invariant kth < n (the
assertion of the source): the final conjuncts show the invariant is
re-established at the internal call sites — the rank passed to the
right-hand recursive call stays below the right window size, and the rank
nnext / 2 passed by the pivot selector stays below the band size nnext —
so the k ≥ n case is never reached by internal recursive calls. -/
theorem claim_C5 {cmp : α → α → Int} (a : List α) (n sz kth : Nat) :
    (quicksort_mm_quicksort cmp true a n sz = a) ∧
    (∀ pIsNull, quicksort_mm_quicksort cmp pIsNull a 0 sz = a) ∧
    (∀ pIsNull, quicksort_mm_quicksort cmp pIsNull a n 0 = a) ∧
    (quicksort_mm_quickselect cmp true a n sz kth = a) ∧
    (∀ pIsNull, quicksort_mm_quickselect cmp pIsNull a n 0 kth = a) ∧
    (∀ pIsNull, quicksort_mm_quickselect cmp pIsNull a 0 sz kth = a) ∧
    (n ≤ kth → ∀ pIsNull, quicksort_mm_quickselect cmp pIsNull a n sz kth = a) ∧
    (kth < n → ∀ first pivot : Nat,
      ((partition_c cmp a first pivot n).2 - first < kth →
        kth - ((partition_c cmp a first pivot n).2 - first) - 1 <
          n - ((partition_c cmp a first pivot n).2 - first) - 1) ∧
      (∀ thin : Nat, ¬ (n < 30 * (if thin < 2 then 2 else thin) ∨ n < 200) →
        n / (15 * (if thin < 2 then 2 else thin)) / 2 <
          n / (15 * (if thin < 2 then 2 else thin)))) := by
  refine ⟨by simp [quicksort_mm_quicksort], ?_, ?_, by
    simp [quicksort_mm_quickselect], ?_, ?_, ?_, ?_⟩
  · intro p
    cases p <;> simp [quicksort_mm_quicksort]
  · intro p
    by_cases hn : n = 0 <;> cases p <;> simp [quicksort_mm_quicksort, hn]
  · intro p
    by_cases hn : n = 0 <;> cases p <;> simp [quicksort_mm_quickselect, hn]
  · intro p
    by_cases hsz : sz = 0 <;> cases p <;>
      simp [quicksort_mm_quickselect, hsz]
  · intro hle p
    by_cases hsz : sz = 0 <;> by_cases hn : n = 0 <;> cases p <;>
      simp [quicksort_mm_quickselect, hsz, hn, hle]
  · intro hk first pivot
    refine ⟨fun h1 => ?_, fun thin h3 => band_rank_lt_c (clamp2_ge thin) h3⟩
    exact rank_right_lt_c
      (@partition_c_pos α _ cmp a first pivot n (Nat.zero_lt_of_lt hk)).1
      (@partition_c_pos α _ cmp a first pivot n (Nat.zero_lt_of_lt hk)).2
      h1 hk

theorem claim_C5_witness :
    quicksort_mm_quicksort (fun x y : Nat => (x : Int) - y) true
      [3, 1, 2] 3 4 = [3, 1, 2] ∧
    quicksort_mm_quickselect (fun x y : Nat => (x : Int) - y) false
      [3, 1, 2] 3 4 7 = [3, 1, 2] ∧
    205 / (15 * (if 1 < 2 then 2 else 1)) / 2 <
      205 / (15 * (if 1 < 2 then 2 else 1)) :=
  ⟨(@claim_C5 Nat _ (fun x y : Nat => (x : Int) - y) [3, 1, 2] 3 4 7).1,
   (@claim_C5 Nat _ (fun x y : Nat => (x : Int) - y)
      [3, 1, 2] 3 4 7).2.2.2.2.2.2.1 (by decide) false,
   ((@claim_C5 Nat _ (fun x y : Nat => (x : Int) - y)
      [3, 1, 2] 205 4 7).2.2.2.2.2.2.2 (by decide) 0 0).2 1 (by decide)⟩

end QuicksortMM
